import Mathlib

/-!
Verification development for the flodgatt Bus Ingestion & Fan-out Manager
(`src/response/redis/manager.rs`) and the WebSocket adapter dispatch
(`src/response/stream/ws.rs`).

Bytes are modelled as `Nat` (values < 256), byte buffers as `List Nat`.
The Redis wire parser, `Timeline`/`Event` types and their decoders live in
repository files that are not part of the provided sources; they are modelled
from the specification (sections 3, 4.1, 4.2, 6) and are marked
`Modelled from the spec:` in their doc comments.
-/

/-- ASCII bytes of a string literal (all literals used are ASCII). -/
def ascii (s : String) : List Nat :=
  s.toList.map Char.toNat

/-- CRLF terminator bytes of the wire protocol. -/
def crlf : List Nat := [13, 10]

/-- Decimal digit byte. -/
def isDigit (b : Nat) : Bool := 48 ≤ b && b ≤ 57

/-- Value of a big-endian decimal digit string, with accumulator. -/
def digitsAcc (acc : Nat) (l : List Nat) : Nat :=
  l.foldl (fun a b => a * 10 + (b - 48)) acc

/-- Value of a big-endian decimal digit string. -/
def digitsVal (l : List Nat) : Nat := digitsAcc 0 l

/-- UTF-8 continuation byte (0x80..0xBF). -/
def isCont (b : Nat) : Bool := 128 ≤ b && b ≤ 191

/-- A valid two-byte UTF-8 sequence head. -/
def isTwo (b c1 : Nat) : Bool := 194 ≤ b && b ≤ 223 && isCont c1

/-- A valid three-byte UTF-8 sequence head (with the E0/ED range restrictions). -/
def isThree (b c1 c2 : Nat) : Bool :=
  224 ≤ b && b ≤ 239 &&
    (if b = 224 then 160 ≤ c1 && c1 ≤ 191
     else if b = 237 then 128 ≤ c1 && c1 ≤ 159
     else isCont c1) &&
    isCont c2

/-- A valid four-byte UTF-8 sequence head (with the F0/F4 range restrictions). -/
def isFour (b c1 c2 c3 : Nat) : Bool :=
  240 ≤ b && b ≤ 244 &&
    (if b = 240 then 144 ≤ c1 && c1 ≤ 191
     else if b = 244 then 128 ≤ c1 && c1 ≤ 143
     else isCont c1) &&
    isCont c2 && isCont c3

/-- Length in bytes of the longest valid UTF-8 prefix of the byte list,
mirroring the `valid_up_to` used by `str::from_utf8` in `Manager::poll`
(manager.rs lines 42-50): a trailing incomplete or invalid sequence is not
counted. -/
def utf8ValidUpTo : List Nat → Nat
  | [] => 0
  | b :: c1 :: c2 :: c3 :: rest =>
    if b ≤ 127 then utf8ValidUpTo (c1 :: c2 :: c3 :: rest) + 1
    else if isTwo b c1 then utf8ValidUpTo (c2 :: c3 :: rest) + 2
    else if isThree b c1 c2 then utf8ValidUpTo (c3 :: rest) + 3
    else if isFour b c1 c2 c3 then utf8ValidUpTo rest + 4
    else 0
  | [b, c1, c2] =>
    if b ≤ 127 then utf8ValidUpTo [c1, c2] + 1
    else if isTwo b c1 then utf8ValidUpTo [c2] + 2
    else if isThree b c1 c2 then 3
    else 0
  | [b, c1] =>
    if b ≤ 127 then utf8ValidUpTo [c1] + 1
    else if isTwo b c1 then 2
    else 0
  | [b] => if b ≤ 127 then 1 else 0

/-- The byte list is entirely valid UTF-8. -/
def utf8Valid (l : List Nat) : Prop := utf8ValidUpTo l = l.length

/-- Whether `pat` occurs as a contiguous sublist anywhere in the list. -/
def hasSub (pat : List Nat) : List Nat → Bool
  | [] => pat.isPrefixOf []
  | b :: rest => pat.isPrefixOf (b :: rest) || hasSub pat rest

/-- Byte index of the rightmost occurrence of `pat`, mirroring `str::rfind`
as used by `Manager::rewind_to_prev_msg` (manager.rs line 120). -/
def rfindSub (pat : List Nat) : List Nat → Option Nat
  | [] => if pat.isPrefixOf ([] : List Nat) then some 0 else none
  | b :: rest =>
    match rfindSub pat rest with
    | some i => some (i + 1)
    | none => if pat.isPrefixOf (b :: rest) then some 0 else none

/-! ## Wire parser

Modelled from the spec: the streaming RESP decoder (`RedisParseOutput::try_from`
in `src/response/redis/msg.rs`, absent from the provided sources).  Spec 4.1/6:
bulk strings, arrays, simple strings and integers with CRLF terminators; a
`Message` is an array-of-3 whose first element is the literal "message"; any
other complete frame is a `NonMessage`; a proper prefix is `Incomplete`; bytes
that cannot start a frame are an error.  Bulk payloads are bounded by the bulk
length prefix, not by scanning (spec 4.1 tie-break).  Array elements are the
non-array frame kinds (the pub/sub reply grammar does not nest arrays). -/

inductive RedisParseErr
  | incomplete
  | invalid
deriving DecidableEq, Repr

/-- Parse result carrying the not-yet-parsed leftover input, mirroring the
`leftover_input` fields consumed by `Manager::poll`. -/
inductive RedisParseOutput
  | msg (channel payload leftover : List Nat)
  | nonMsg (leftover : List Nat)
deriving DecidableEq, Repr

/-- A parsing step: consumes a prefix of the input, returns a value and the
rest of the input. -/
def PStep (α : Type) : Type := List Nat → Except RedisParseErr (α × List Nat)

/-- Sequencing of parsing steps. -/
def pbind {α β : Type} (f : PStep α) (g : α → PStep β) : PStep β := fun l =>
  match f l with
  | .ok (a, r) => g a r
  | .error e => .error e

/-- Mapping over a parsing step's value. -/
def pmap {α β : Type} (h : α → β) (f : PStep α) : PStep β := fun l =>
  match f l with
  | .ok (a, r) => .ok (h a, r)
  | .error e => .error e

/-- Modelled from the spec: decimal number followed by CRLF (array and bulk
length headers, integer frames).  `seen` records whether a digit has been read. -/
def parseNumAux (acc : Nat) (seen : Bool) : List Nat → Except RedisParseErr (Nat × List Nat)
  | [] => .error .incomplete
  | b :: rest =>
    if isDigit b then parseNumAux (acc * 10 + (b - 48)) true rest
    else if b = 13 then
      if seen then
        match rest with
        | [] => .error .incomplete
        | 10 :: r => .ok (acc, r)
        | _ => .error .invalid
      else .error .invalid
    else .error .invalid

/-- Modelled from the spec: a decimal number with CRLF terminator. -/
def parseNum : PStep Nat := fun l => parseNumAux 0 false l

/-- Modelled from the spec: body of a bulk string of announced length `n`:
exactly `n` content bytes followed by CRLF. -/
def parseBulkBody (n : Nat) : PStep (List Nat) := fun l =>
  if l.length < n then .error .incomplete
  else
    match l.drop n with
    | 13 :: 10 :: r => .ok (l.take n, r)
    | [] => .error .incomplete
    | [13] => .error .incomplete
    | _ => .error .invalid

/-- Modelled from the spec: content of a simple string up to CRLF. -/
def parseLine : List Nat → Except RedisParseErr (List Nat × List Nat)
  | [] => .error .incomplete
  | 13 :: [] => .error .incomplete
  | 13 :: 10 :: r => .ok ([], r)
  | 13 :: _ :: _ => .error .invalid
  | b :: rest =>
    match parseLine rest with
    | .ok (s, r) => .ok (b :: s, r)
    | .error e => .error e

/-- A complete non-array frame. -/
inductive Elem
  | bulk (content : List Nat)
  | simple (content : List Nat)
  | int (n : Nat)
deriving DecidableEq, Repr

/-- Modelled from the spec: one non-array frame: bulk string (`$`), simple
string (`+`) or integer (`:`). -/
def parseElem : List Nat → Except RedisParseErr (Elem × List Nat)
  | [] => .error .incomplete
  | 36 :: rest => pbind parseNum (fun n => pmap Elem.bulk (parseBulkBody n)) rest
  | 43 :: rest => pmap Elem.simple parseLine rest
  | 58 :: rest => pmap Elem.int parseNum rest
  | _ => .error .invalid

/-- Modelled from the spec: `n` consecutive frames (an array's elements). -/
def parseElems : Nat → PStep (List Elem)
  | 0 => fun l => .ok ([], l)
  | n + 1 => pbind parseElem (fun e => pmap (fun es => e :: es) (parseElems n))

/-- Classify a complete array frame: array-of-3 bulks starting with the
literal "message" is a pub/sub delivery, anything else a non-message. -/
def classifyArr (es : List Elem) (r : List Nat) : RedisParseOutput :=
  match es with
  | [.bulk m, .bulk c, .bulk p] =>
    if m = ascii "message" then .msg c p r else .nonMsg r
  | _ => .nonMsg r

/-- Modelled from the spec: the top-level frame decoder
(`RedisParseOutput::try_from`). -/
def parseRESP : List Nat → Except RedisParseErr RedisParseOutput
  | [] => .error .incomplete
  | 42 :: rest =>
    match pbind parseNum (fun n => parseElems n) rest with
    | .ok (es, r) => .ok (classifyArr es r)
    | .error e => .error e
  | l =>
    match parseElem l with
    | .ok (_, r) => .ok (.nonMsg r)
    | .error e => .error e

/-! ## Timelines and events

Modelled from the spec: the `Timeline` and `Event` types of
`src/request/timeline.rs` and `src/event/mod.rs` (absent from the provided
sources), following spec section 3 and the channel naming rules of section 6. -/

/-- Modelled from the spec: a logical stream key (spec section 3). -/
inductive Timeline
  | user (id : Nat)
  | userNotif (id : Nat)
  | public
  | publicLocal
  | hashtag (id : Int)
  | hashtagLocal (id : Int)
  | list (id : Nat)
  | direct (id : Nat)
deriving DecidableEq, Repr

/-- Modelled from the spec: the numeric hashtag id a timeline carries, if any. -/
def Timeline.tag : Timeline → Option Int
  | .hashtag id => some id
  | .hashtagLocal id => some id
  | _ => none

/-- Modelled from the spec: whether the timeline is a public one (used by the
language filter in `Ws::send_to`). -/
def Timeline.is_public : Timeline → Bool
  | .public => true
  | .publicLocal => true
  | _ => false

/-- Modelled from the spec: filtering-relevant data of an `Update` payload
(spec section 3: `language()`, `language_unset()`, `involved_users()`,
`author()`, `sent_from()`). -/
structure UpdatePayload where
  language : List Nat
  language_unset : Bool
  involved_users : List Nat
  author : Nat
  sent_from : List Nat
deriving DecidableEq, Repr

/-- Modelled from the spec: the event union (spec section 3). -/
inductive Event
  | ping
  | delete (id : List Nat)
  | update (payload : UpdatePayload)
  | notif (txt : List Nat)
  | filtersChanged
  | announce (txt : List Nat)
deriving DecidableEq, Repr

/-- Modelled from the spec: the `Update` payload of an event, if it is one. -/
def Event.get_update_payload : Event → Option UpdatePayload
  | .update u => some u
  | _ => none

/-- Decode errors of the event/timeline decoders (spec section 7). -/
inductive EventErr
  | unknownHashtag
  | unknownEvent
  | invalidInput
deriving DecidableEq, Repr

/-- Errors surfaced by `Manager::poll` (manager.rs `Error`). -/
inductive MError
  | redisParseErr (e : RedisParseErr) (txt : List Nat)
  | eventErr (e : EventErr)
deriving DecidableEq, Repr

/-- Split a byte list at colon (58) separators. -/
def splitOnColon : List Nat → List (List Nat)
  | [] => [[]]
  | b :: rest =>
    match splitOnColon rest with
    | r0 :: rs => if b = 58 then [] :: r0 :: rs else (b :: r0) :: rs
    | [] => if b = 58 then [[], []] else [[b]]

/-- Parse a nonempty all-digit byte list as a number. -/
def parseDecimal (l : List Nat) : Option Nat :=
  if l ≠ [] ∧ l.all isDigit then some (digitsVal l) else none

/-- Association-list lookup keyed by byte-list names (the tag id cache). -/
def tagLookup (k : List Nat) : List (List Nat × Int) → Option Int
  | [] => none
  | (k', v) :: rest => if k' = k then some v else tagLookup k rest

/-- Put into the tag id cache (LRU recency and the size-1000 eviction bound
are elided: neither is exercised by the claims). -/
def tagPut (k : List Nat) (v : Int) (c : List (List Nat × Int)) : List (List Nat × Int) :=
  (k, v) :: c.filter (fun e => e.1 ≠ k)

/-- Modelled from the spec: `Timeline::from_redis_text` — parse a channel name
of the forms of spec section 6 (`public`, `public:local`, `hashtag:<name>`,
`hashtag:<name>:local`, `list:<id>`, `direct:<userid>`, `<userid>`,
`<userid>:notification`) after the `timeline:` prefix; a hashtag consults the
name-to-id cache and a miss yields `UnknownHashtag`. -/
def Timeline.from_redis_text (l : List Nat) (cache : List (List Nat × Int)) :
    Except EventErr Timeline :=
  match splitOnColon l with
  | [t, s] =>
    if t ≠ ascii "timeline" then .error .invalidInput
    else if s = ascii "public" then .ok .public
    else
      match parseDecimal s with
      | some id => .ok (.user id)
      | none => .error .invalidInput
  | [t, a, b] =>
    if t ≠ ascii "timeline" then .error .invalidInput
    else if a = ascii "public" ∧ b = ascii "local" then .ok .publicLocal
    else if a = ascii "hashtag" then
      match tagLookup b cache with
      | some id => .ok (.hashtag id)
      | none => .error .unknownHashtag
    else if a = ascii "list" then
      match parseDecimal b with
      | some id => .ok (.list id)
      | none => .error .invalidInput
    else if a = ascii "direct" then
      match parseDecimal b with
      | some id => .ok (.direct id)
      | none => .error .invalidInput
    else if b = ascii "notification" then
      match parseDecimal a with
      | some id => .ok (.userNotif id)
      | none => .error .invalidInput
    else .error .invalidInput
  | [t, a, b, c] =>
    if t = ascii "timeline" ∧ a = ascii "hashtag" ∧ c = ascii "local" then
      match tagLookup b cache with
      | some id => .ok (.hashtagLocal id)
      | none => .error .unknownHashtag
    else .error .invalidInput
  | _ => .error .invalidInput

/-- Modelled from the spec: `channel_matches_namespace` (spec 4.1) — the
timeline-bearing substring of a bus channel name: the part after `ns:` when a
namespace is configured (`None` if it does not match), else the whole name. -/
def timeline_matching_ns (channel : List Nat) (ns : Option (List Nat)) :
    Option (List Nat) :=
  match ns with
  | none => some channel
  | some n =>
    if (n ++ [58]).isPrefixOf channel then some (channel.drop (n.length + 1))
    else none

/-- Extract the value of a JSON string field: the bytes after the first
occurrence of `key` up to the next quote. -/
def fieldAfter (key : List Nat) : List Nat → Option (List Nat)
  | [] => none
  | b :: rest =>
    if key.isPrefixOf (b :: rest) then some (((b :: rest).drop key.length).takeWhile (fun c => c ≠ 34))
    else fieldAfter key rest

/-- Modelled from the spec: `event_from_json` (spec 4.2/6) — decode of the
JSON document by its `event` discriminator; unknown event types yield
`UnknownEvent`.  Full JSON structure is abbreviated to the discriminator, the
opaque `payload` string and the `language` field, the only parts the claims
exercise. -/
def eventFromTxt (p : List Nat) : Except EventErr Event :=
  match fieldAfter (ascii "\"event\":\"") p with
  | none => .error .unknownEvent
  | some k =>
    if k = ascii "ping" then .ok .ping
    else if k = ascii "delete" then
      .ok (.delete ((fieldAfter (ascii "\"payload\":\"") p).getD []))
    else if k = ascii "update" then
      .ok (.update
        { language := (fieldAfter (ascii "\"language\":\"") p).getD []
          language_unset := (fieldAfter (ascii "\"language\":\"") p).isNone
          involved_users := []
          author := 0
          sent_from := [] })
    else if k = ascii "notification" then .ok (.notif p)
    else if k = ascii "announcement" then .ok (.announce p)
    else if k = ascii "filters_changed" then .ok .filtersChanged
    else .error .unknownEvent

/-! ## Channels and the Manager state -/

/-- Modelled from the spec: one client's bounded outbound queue endpoint
(spec section 3 `OutboundQueue`, a `tokio::sync::mpsc::Sender`): a readiness
flag (capacity available), a closed flag (receiver dropped) and the list of
events delivered so far. -/
structure Channel where
  ready : Bool
  closed : Bool
  sent : List Event
deriving DecidableEq, Repr

/-- Nonblocking send: fails on a closed or full queue, otherwise records the
event (`Sender::try_send`). -/
def Channel.trySend (c : Channel) (ev : Event) : Channel × Bool :=
  if c.closed || !c.ready then (c, false)
  else ({ c with sent := c.sent ++ [ev] }, true)

/-- A channel the ping sweep drops: its `try_send` fails. -/
def chanDead (c : Channel) : Bool := c.closed || !c.ready

/-- Subscription data needed by `Manager::subscribe` and `Ws::send_to`.
Modelled from the spec (section 3 and the adapter interface of section 6). -/
structure Blocks where
  blocked_users : List Nat
  blocking_users : List Nat
  blocked_domains : List (List Nat)
deriving DecidableEq, Repr

structure Subscription where
  timeline : Timeline
  hashtag_name : Option (List Nat)
  blocks : Blocks
  allowed_langs : List (List Nat)
deriving DecidableEq, Repr

/-- Association-list lookup in the timelines table. -/
def lookupTL (t : Timeline) : List (Timeline × List (Nat × Channel)) → Option (List (Nat × Channel))
  | [] => none
  | (t', cs) :: rest => if t' = t then some cs else lookupTL t rest

/-- Update an existing timeline entry in place (preserving order). -/
def setTL (t : Timeline) (cs : List (Nat × Channel)) :
    List (Timeline × List (Nat × Channel)) → List (Timeline × List (Nat × Channel))
  | [] => []
  | (t', cs') :: rest => if t' = t then (t, cs) :: rest else (t', cs') :: setTL t cs rest

/-- Insert-or-replace a channel by id (`HashMap::insert`). -/
def insertChan (id : Nat) (c : Channel) : List (Nat × Channel) → List (Nat × Channel)
  | [] => [(id, c)]
  | (id', c') :: rest => if id' = id then (id, c) :: rest else (id', c') :: insertChan id c rest

/-- The `Manager` state (manager.rs lines 27-34).  The Redis connection is
folded in as the input buffer, the configured namespace and the id-to-name tag
cache; `ping_time` (wall clock) is not modelled — the ping sweep is invoked
explicitly. -/
structure Manager where
  input : List Nat
  unread_idx : Nat × Nat
  timelines : List (Timeline × List (Nat × Channel))
  channel_id : Nat
  tag_id_cache : List (List Nat × Int)
  tag_name_cache : List (Int × List Nat)
  ns : Option (List Nat)
deriving DecidableEq, Repr

/-- The unread window `input[read_start..write_end]`. -/
def Manager.window (st : Manager) : List Nat :=
  (st.input.take st.unread_idx.2).drop st.unread_idx.1

/-- Result of one `Stream::poll` call on the manager. -/
inductive PollResult
  | ready (item : Option (Timeline × Event))
  | notReady
  | perr (e : MError)
deriving DecidableEq, Repr

/-- Buffer compaction (`Manager::copy_partial_msg`, manager.rs lines 133-149):
when the unread part fits into the dead prefix it is copied down in place;
otherwise the buffer is reallocated from the unread offset; the indices become
`(0, write_end - read_start)`. -/
def Manager.copy_partial_msg (st : Manager) : Manager :=
  let rs := st.unread_idx.1
  let we := st.unread_idx.2
  let input' :=
    if rs = 0 then st.input
    else if rs ≥ we - rs then
      ((st.input.take we).drop rs) ++ st.input.drop (we - rs)
    else st.input.drop rs
  { st with input := input', unread_idx := (0, we - rs) }

/-- One `Stream::poll` on the manager (manager.rs lines 40-83): split the
unread window at the end of its valid UTF-8 prefix, parse the valid part, and
on a message matching the namespace advance `read_start` and decode the
timeline and event. -/
def Manager.poll (st : Manager) : Manager × PollResult :=
  let input := st.window
  let v := utf8ValidUpTo input
  let valid := input.take v
  let invalid := input.drop v
  if valid ≠ [] then
    match parseRESP valid with
    | .ok (.msg ch payload leftover) =>
      match timeline_matching_ns ch st.ns with
      | some tlTxt =>
        let st1 : Manager :=
          { st with unread_idx := (st.unread_idx.2 - leftover.length - invalid.length, st.unread_idx.2) }
        match Timeline.from_redis_text tlTxt st1.tag_id_cache with
        | .error e => (st1, .perr (.eventErr e))
        | .ok tl =>
          match eventFromTxt payload with
          | .error e => (st1, .perr (.eventErr e))
          | .ok ev => (st1, .ready (some (tl, ev)))
      | none => (st, .ready none)
    | .ok (.nonMsg leftover) =>
      ({ st with unread_idx := (st.unread_idx.2 - leftover.length, st.unread_idx.2) }, .ready none)
    | .error .incomplete => (st.copy_partial_msg, .notReady)
    | .error e => (st, .perr (.redisParseErr e valid))
  else
    ({ st with unread_idx := (0, 0) }, .notReady)

/-- The backward scan of `Manager::rewind_to_prev_msg` (manager.rs lines
113-131), with explicit fuel standing in for the unbounded Rust `loop`: find
the rightmost `"\r\n*"` in the valid UTF-8 prefix of `input[..read_start]`,
move `read_start` just past the `"\r\n"` (or to 0), and stop once re-polling
at the candidate yields a message. -/
def Manager.rewindIdx (st : Manager) : Nat :=
  let scanned := st.input.take st.unread_idx.1
  let valid := scanned.take (utf8ValidUpTo scanned)
  match rfindSub [13, 10, 42] valid with
  | some i => i + 2
  | none => 0

def Manager.rewindAux : Nat → Manager → Manager
  | 0, st => st
  | fuel + 1, st =>
    let idx := st.rewindIdx
    let st1 : Manager := { st with unread_idx := (idx, st.unread_idx.2) }
    match (st1.poll).2 with
    | .ready (some _) => { (st1.poll).1 with unread_idx := (idx, ((st1.poll).1).unread_idx.2) }
    | _ => Manager.rewindAux fuel (st1.poll).1

/-- Rewind to the previous message start (`Manager::rewind_to_prev_msg`). -/
def Manager.rewind_to_prev_msg (st : Manager) : Manager :=
  Manager.rewindAux (st.unread_idx.1 + st.unread_idx.2 + 1) st

/-- The per-channel fan-out walk of `Manager::send_msgs` (manager.rs lines
98-106): deliver the event to each channel in turn; an open channel reporting
`NotReady` aborts the walk (returns `true`) leaving the remaining channels
untouched; send errors on closed channels are ignored. -/
def fanOutChannels (ev : Event) : List (Nat × Channel) → List (Nat × Channel) × Bool
  | [] => ([], false)
  | (id, c) :: rest =>
    if !c.ready && !c.closed then ((id, c) :: rest, true)
    else
      let res := fanOutChannels ev rest
      ((id, (c.trySend ev).1) :: res.1, res.2)

/-- Fan-out of one decoded event (manager.rs lines 97-107): look up the
timeline's channel map — `entry(tl).or_default()` inserts an empty map when
absent — walk the channels, and on backpressure rewind the parser. -/
def Manager.fan_out (st : Manager) (tl : Timeline) (ev : Event) : Manager × Bool :=
  let st :=
    if (lookupTL tl st.timelines).isSome then st
    else { st with timelines := st.timelines ++ [(tl, [])] }
  let chans := (lookupTL tl st.timelines).getD []
  let res := fanOutChannels ev chans
  let st := { st with timelines := setTL tl res.1 st.timelines }
  if res.2 then (st.rewind_to_prev_msg, true) else (st, false)

/-- How one run of the inner dispatch loop of `Manager::send_msgs` ends. -/
inductive InnerExit
  | drained
  | deferred
  | errored (e : MError)
  | fuelOut
deriving DecidableEq, Repr

/-- The inner `while let Ok(Async::Ready(msg)) = self.poll()` loop of
`Manager::send_msgs` (manager.rs lines 96-108) with explicit fuel: poll, fan
out each decoded message, return `NotReady` on backpressure; a poll error
silently exits the loop. -/
def Manager.send_loop : Nat → Manager → Manager × InnerExit
  | 0, st => (st, .fuelOut)
  | fuel + 1, st =>
    match (st.poll).2 with
    | .ready (some (tl, ev)) =>
      let p := ((st.poll).1).fan_out tl ev
      if p.2 then (p.1, .deferred) else Manager.send_loop fuel p.1
    | .ready none => Manager.send_loop fuel (st.poll).1
    | .notReady => ((st.poll).1, .drained)
    | .perr e => ((st.poll).1, .errored e)

/-- Commands the manager issues to the bus (`RedisCmd`); `send_cmd` itself is
socket I/O, so issued commands are modelled as emitted values. -/
inductive RedisCmdKind
  | subscribe
  | unsubscribe
deriving DecidableEq, Repr

/-- Register a client (`Manager::subscribe`, manager.rs lines 166-183):
populate the tag caches, insert the channel under a fresh id, and issue a bus
`SUBSCRIBE` exactly when the timeline's channel map reaches size 1. -/
def Manager.subscribe (st : Manager) (sub : Subscription) (chan : Channel) :
    Manager × List (RedisCmdKind × List Timeline) :=
  let st :=
    match sub.hashtag_name, sub.timeline.tag with
    | some h, some id =>
      { st with
        tag_id_cache := tagPut h id st.tag_id_cache
        tag_name_cache := (id, h) :: st.tag_name_cache.filter (fun e => e.1 ≠ id) }
    | _, _ => st
  let chans := (lookupTL sub.timeline st.timelines).getD []
  let chans' := insertChan st.channel_id chan chans
  let st1 : Manager :=
    { st with
      timelines :=
        if (lookupTL sub.timeline st.timelines).isSome then
          setTL sub.timeline chans' st.timelines
        else st.timelines ++ [(sub.timeline, chans')]
      channel_id := st.channel_id + 1 }
  (st1, if chans'.length = 1 then [(.subscribe, [sub.timeline])] else [])

/-- The ping sweep (`Manager::send_pings`, manager.rs lines 185-211): try to
send `Ping` on every channel, drop channels whose send fails, drop timelines
left empty and issue a single `UNSUBSCRIBE` naming all of them. -/
def sweepChans (cs : List (Nat × Channel)) : List (Nat × Channel) :=
  cs.filterMap (fun idc =>
    let r := idc.2.trySend .ping
    if r.2 then some (idc.1, r.1) else none)

def Manager.send_pings (st : Manager) : Manager × List (RedisCmdKind × List Timeline) :=
  let swept := st.timelines.map (fun e => (e.1, sweepChans e.2))
  let kept := swept.filter (fun e => e.2 ≠ [])
  let closed := (swept.filter (fun e => e.2 = [])).map (fun e => e.1)
  ({ st with timelines := kept },
   if closed = [] then [] else [(.unsubscribe, closed)])

/-- Timelines named by UNSUBSCRIBE commands in an emitted command list. -/
def unsubNames (cmds : List (RedisCmdKind × List Timeline)) : List Timeline :=
  (cmds.filter (fun c => c.1 = .unsubscribe)).foldr (fun c acc => c.2 ++ acc) []

/-- Boolean form of the subscription-table invariant: every timeline key has
at least one channel (spec section 8, invariant 1). -/
def Manager.invB (st : Manager) : Bool :=
  st.timelines.all (fun e => !e.2.isEmpty)

/-! ## Feeding byte chunks (the read loop of `send_msgs`)

`RedisConn::poll_redis` appends freshly read bytes at `write_end`; the manager
then polls until the parser needs more bytes.  `feedChunk` models one
`Ready(n)` read followed by that drain, collecting the decoded pairs. -/

/-- Drain the manager by repeated polls, collecting decoded `(Timeline, Event)`
pairs, until the parser reports `NotReady` (or errors); fuel bounds the loop. -/
def Manager.drainAux : Nat → Manager → List (Timeline × Event) → Manager × List (Timeline × Event)
  | 0, st, acc => (st, acc)
  | fuel + 1, st, acc =>
    match (st.poll).2 with
    | .ready (some te) => Manager.drainAux fuel (st.poll).1 (acc ++ [te])
    | .ready none => Manager.drainAux fuel (st.poll).1 acc
    | _ => ((st.poll).1, acc)

/-- Append one chunk of bytes at `write_end` and drain. -/
def Manager.feedChunk (st : Manager) (chunk : List Nat) : Manager × List (Timeline × Event) :=
  let st1 : Manager :=
    { st with
      input := st.input.take st.unread_idx.2 ++ chunk
      unread_idx := (st.unread_idx.1, st.unread_idx.2 + chunk.length) }
  Manager.drainAux (st1.unread_idx.2 + 2) st1 []

/-- Feed a list of chunks in order, concatenating the decoded pairs. -/
def Manager.feedAll (st : Manager) : List (List Nat) → Manager × List (Timeline × Event)
  | [] => (st, [])
  | c :: cs =>
    let (st1, evs) := st.feedChunk c
    let (st2, evs') := st1.feedAll cs
    (st2, evs ++ evs')

/-! ## The encoded message frame -/

/-- A pub/sub delivery frame (spec section 6):
`*3\r\n$7\r\nmessage\r\n$<n>\r\n<channel>\r\n$<m>\r\n<payload>\r\n`, with the
two length headers given as explicit digit strings. -/
def msgFrame (d1 ch d2 p : List Nat) : List Nat :=
  [42, 51, 13, 10] ++ [36, 55, 13, 10] ++ ascii "message" ++ crlf
    ++ 36 :: (d1 ++ crlf) ++ ch ++ crlf ++ 36 :: (d2 ++ crlf) ++ p ++ crlf

/-- A nonempty digit string denoting `n`. -/
def goodDigits (d : List Nat) (n : Nat) : Prop :=
  d ≠ [] ∧ d.all isDigit = true ∧ digitsVal d = n

/-- Well-formedness of a message frame: the two length headers denote the
channel's and payload's byte lengths. -/
def MsgWF (d1 ch d2 p : List Nat) : Prop :=
  goodDigits d1 ch.length ∧ goodDigits d2 p.length

/-! ## WebSocket adapter dispatch (ws.rs lines 53-78) -/

/-- The per-event forwarding decision of `Ws::send_to`: a `Ping` is always
forwarded; any other event only when its timeline equals the subscription's
target; `Update` events additionally pass the language filter (public
timelines only) and the block filters. -/
def Ws.forwards (sub : Subscription) (tl : Timeline) (event : Event) : Bool :=
  if event = .ping then true
  else if sub.timeline = tl then
    match event.get_update_payload with
    | some u =>
      if tl.is_public && !u.language_unset && !sub.allowed_langs.isEmpty
          && !sub.allowed_langs.contains u.language then false
      else if u.involved_users.any (fun x => sub.blocks.blocked_users.contains x) then false
      else if sub.blocks.blocking_users.contains u.author then false
      else if sub.blocks.blocked_domains.contains u.sent_from then false
      else true
    | none => true
  else false

/-! ## Parser lemmas: a frame parses exactly, and every proper prefix is
incomplete -/

/-- The step `f` consumes exactly `x` producing `v`: with any continuation it
returns the continuation as leftover, and on any proper prefix of `x` it
reports `Incomplete`. -/
def ParsesExactly {α : Type} (f : PStep α) (x : List Nat) (v : α) : Prop :=
  (∀ r, f (x ++ r) = .ok (v, r)) ∧
  (∀ k, k < x.length → f (x.take k) = .error .incomplete)

theorem pe_pbind {α β : Type} {f : PStep α} {g : α → PStep β} {x y : List Nat}
    {v : α} {w : β} (hf : ParsesExactly f x v) (hg : ParsesExactly (g v) y w) :
    ParsesExactly (pbind f g) (x ++ y) w := by
  constructor
  · intro r
    simp only [pbind, List.append_assoc, hf.1]
    exact hg.1 r
  · intro k hk
    rw [List.take_append_eq_append_take]
    rcases Nat.lt_or_ge k x.length with h | h
    · have hz : k - x.length = 0 := Nat.sub_eq_zero_of_le (Nat.le_of_lt h)
      simp only [hz, List.take_zero, List.append_nil, pbind, hf.2 k h]
    · have hx : x.take k = x := List.take_of_length_le h
      simp only [hx, pbind, hf.1]
      apply hg.2
      simp only [List.length_append] at hk
      omega

theorem pe_pmap {α β : Type} {f : PStep α} {x : List Nat} {v : α} (h : α → β)
    (hf : ParsesExactly f x v) : ParsesExactly (pmap h f) x (h v) := by
  constructor
  · intro r; simp only [pmap, hf.1]
  · intro k hk; simp only [pmap, hf.2 k hk]

theorem digitsAcc_append (acc : Nat) (d : List Nat) (b : Nat) :
    digitsAcc acc (d ++ [b]) = digitsAcc acc d * 10 + (b - 48) := by
  simp [digitsAcc]

theorem parseNumAux_digits_incomplete (d : List Nat) (hd : d.all isDigit = true) :
    ∀ acc seen, parseNumAux acc seen d = .error .incomplete := by
  induction d with
  | nil => intro acc seen; rfl
  | cons b rest ih =>
    intro acc seen
    simp only [List.all_cons, Bool.and_eq_true] at hd
    simp only [parseNumAux, hd.1, if_pos]
    exact ih hd.2 _ _

theorem parseNumAux_cr_incomplete (d : List Nat) (hd : d.all isDigit = true) :
    ∀ acc seen, (seen = true ∨ d ≠ []) →
      parseNumAux acc seen (d ++ [13]) = .error .incomplete := by
  induction d with
  | nil =>
    intro acc seen hs
    rcases hs with hs | hs
    · subst hs; rfl
    · exact absurd rfl hs
  | cons b rest ih =>
    intro acc seen _
    simp only [List.all_cons, Bool.and_eq_true] at hd
    simp only [List.cons_append, parseNumAux, hd.1, if_pos]
    exact ih hd.2 _ true (Or.inl rfl)

theorem parseNumAux_ok (d : List Nat) (hd : d.all isDigit = true) :
    ∀ acc seen, (seen = true ∨ d ≠ []) → ∀ r,
      parseNumAux acc seen (d ++ 13 :: 10 :: r) = .ok (digitsAcc acc d, r) := by
  induction d with
  | nil =>
    intro acc seen hs r
    rcases hs with hs | hs
    · subst hs; rfl
    · exact absurd rfl hs
  | cons b rest ih =>
    intro acc seen _ r
    simp only [List.all_cons, Bool.and_eq_true] at hd
    simp only [List.cons_append, parseNumAux, hd.1, if_pos]
    have := ih hd.2 (acc * 10 + (b - 48)) true (Or.inl rfl) r
    have h2 : rest.append (13 :: 10 :: r) = rest ++ 13 :: 10 :: r := rfl
    rw [h2, this]
    simp [digitsAcc]

theorem all_take {p : Nat → Bool} {d : List Nat} (h : d.all p = true) (k : Nat) :
    (d.take k).all p = true := by
  rw [List.all_eq_true] at h ⊢
  exact fun x hx => h x (List.take_subset _ _ hx)

/-- A well-formed number header parses exactly. -/
theorem pe_num {d : List Nat} {n : Nat} (hd : goodDigits d n) :
    ParsesExactly parseNum (d ++ crlf) n := by
  obtain ⟨hne, hdig, hval⟩ := hd
  constructor
  · intro r
    show parseNumAux 0 false ((d ++ crlf) ++ r) = _
    have : (d ++ crlf) ++ r = d ++ 13 :: 10 :: r := by simp [crlf]
    rw [this, parseNumAux_ok d hdig 0 false (Or.inr hne) r, ← hval]
    rfl
  · intro k hk
    show parseNumAux 0 false ((d ++ crlf).take k) = _
    rw [List.take_append_eq_append_take]
    simp only [List.length_append, crlf, List.length_cons, List.length_nil] at hk
    rcases Nat.lt_or_ge k d.length with h | h
    · have hz : k - d.length = 0 := Nat.sub_eq_zero_of_le (Nat.le_of_lt h)
      simp only [hz, List.take_zero, List.append_nil, crlf]
      exact parseNumAux_digits_incomplete _ (all_take hdig k) 0 false
    · have hx : d.take k = d := List.take_of_length_le h
      have hk1 : k - d.length ≤ 1 := by omega
      rcases Nat.le_one_iff_eq_zero_or_eq_one.mp hk1 with h0 | h1
      · simp only [hx, h0, List.take_zero, List.append_nil]
        exact parseNumAux_digits_incomplete _ hdig 0 false
      · have : (crlf).take (k - d.length) = [13] := by rw [h1]; rfl
        rw [hx, this]
        exact parseNumAux_cr_incomplete d hdig 0 false (Or.inr hne)

/-- A bulk body of the announced length parses exactly. -/
theorem pe_bulkBody {c : List Nat} {n : Nat} (hn : c.length = n) :
    ParsesExactly (parseBulkBody n) (c ++ crlf) c := by
  constructor
  · intro r
    show parseBulkBody n ((c ++ crlf) ++ r) = _
    have hre : (c ++ crlf) ++ r = c ++ (13 :: 10 :: r) := by simp [crlf]
    rw [hre]
    have hlen : ¬ (c ++ 13 :: 10 :: r).length < n := by
      simp only [List.length_append, List.length_cons, hn]; omega
    have hdrop : (c ++ 13 :: 10 :: r).drop n = 13 :: 10 :: r := List.drop_left' hn
    have htake : (c ++ 13 :: 10 :: r).take n = c := List.take_left' hn
    simp only [parseBulkBody, hlen, if_false, hdrop, htake]
  · intro k hk
    show parseBulkBody n ((c ++ crlf).take k) = _
    simp only [List.length_append, crlf, List.length_cons, List.length_nil] at hk
    rw [List.take_append_eq_append_take]
    rcases Nat.lt_or_ge k c.length with h | h
    · have hz : k - c.length = 0 := Nat.sub_eq_zero_of_le (Nat.le_of_lt h)
      have hlt : (c.take k).length < n := by
        simp only [List.length_take]; omega
      simp only [hz, List.take_zero, List.append_nil, parseBulkBody, hlt, if_pos]
    · have hx : c.take k = c := List.take_of_length_le h
      have hk1 : k - c.length ≤ 1 := by omega
      rcases Nat.le_one_iff_eq_zero_or_eq_one.mp hk1 with h0 | h1
      · have hlen : ¬ c.length < n := by omega
        have hdropn : c.drop n = [] := by rw [← hn, List.drop_length]
        simp only [hx, h0, List.take_zero, List.append_nil, parseBulkBody, hlen, if_false, hdropn]
      · have hone : crlf.take (k - c.length) = [13] := by rw [h1]; rfl
        have hlen : ¬ (c ++ [13]).length < n := by
          simp only [List.length_append, List.length_cons, List.length_nil, hn]; omega
        simp only [hx, hone, parseBulkBody, hlen, if_false]
        rw [List.drop_left' hn]

/-- Wrap a parsing step in a leading tag byte. -/
theorem pe_cons_arm {α : Type} {f : PStep α} {x : List Nat} {v : α} (b : Nat)
    (F : List Nat → Except RedisParseErr (α × List Nat))
    (harm : ∀ l, F (b :: l) = f l) (hnil : F [] = .error .incomplete)
    (hf : ParsesExactly f x v) : ParsesExactly F (b :: x) v := by
  constructor
  · intro r
    rw [List.cons_append, harm]
    exact hf.1 r
  · intro k hk
    cases k with
    | zero => simpa using hnil
    | succ j =>
      rw [List.take_succ_cons, harm]
      exact hf.2 j (by simpa using Nat.lt_of_succ_lt_succ hk)

/-- A bulk-string element frame parses exactly. -/
theorem pe_bulkElem {d c : List Nat} (hd : goodDigits d c.length) :
    ParsesExactly parseElem (36 :: ((d ++ crlf) ++ (c ++ crlf))) (Elem.bulk c) := by
  apply pe_cons_arm 36 parseElem (fun l => rfl) rfl
  exact pe_pbind (pe_num hd) (pe_pmap Elem.bulk (pe_bulkBody rfl))

theorem pe_elems_nil : ParsesExactly (parseElems 0) [] [] := by
  constructor
  · intro r; rfl
  · intro k hk; simp at hk

theorem pe_elems_cons {x y : List Nat} {e : Elem} {es : List Elem} {n : Nat}
    (hx : ParsesExactly parseElem x e) (hy : ParsesExactly (parseElems n) y es) :
    ParsesExactly (parseElems (n + 1)) (x ++ y) (e :: es) := by
  show ParsesExactly (pbind parseElem (fun e => pmap (fun es => e :: es) (parseElems n))) _ _
  exact pe_pbind hx (pe_pmap _ hy)

/-- The message frame reassociated along the parser's consumption structure. -/
theorem msgFrame_assoc (d1 ch d2 p : List Nat) :
    msgFrame d1 ch d2 p =
      42 :: (([51] ++ crlf) ++
        ((36 :: (([55] ++ crlf) ++ (ascii "message" ++ crlf))) ++
         ((36 :: ((d1 ++ crlf) ++ (ch ++ crlf))) ++
          ((36 :: ((d2 ++ crlf) ++ (p ++ crlf))) ++ [])))) := by
  simp [msgFrame, crlf, List.append_assoc]

/-- The array header and three bulk elements of a well-formed message frame
parse exactly. -/
theorem pe_msg_inner {d1 ch d2 p : List Nat} (hwf : MsgWF d1 ch d2 p) :
    ParsesExactly (pbind parseNum (fun n => parseElems n))
      (([51] ++ crlf) ++
        ((36 :: (([55] ++ crlf) ++ (ascii "message" ++ crlf))) ++
         ((36 :: ((d1 ++ crlf) ++ (ch ++ crlf))) ++
          ((36 :: ((d2 ++ crlf) ++ (p ++ crlf))) ++ []))))
      [Elem.bulk (ascii "message"), Elem.bulk ch, Elem.bulk p] := by
  have h3 : goodDigits [51] 3 := by
    refine ⟨by decide, by decide, by decide⟩
  have h7 : goodDigits [55] (ascii "message").length := by
    refine ⟨by decide, by decide, by decide⟩
  exact pe_pbind (pe_num h3)
    (pe_elems_cons (pe_bulkElem h7)
      (pe_elems_cons (pe_bulkElem hwf.1)
        (pe_elems_cons (pe_bulkElem hwf.2) pe_elems_nil)))

/-- A well-formed message frame, followed by any continuation, parses as a
`Message` whose leftover is exactly the continuation. -/
theorem parseRESP_msgFrame {d1 ch d2 p : List Nat} (hwf : MsgWF d1 ch d2 p) (r : List Nat) :
    parseRESP (msgFrame d1 ch d2 p ++ r) = .ok (.msg ch p r) := by
  rw [msgFrame_assoc, List.cons_append]
  show (match pbind parseNum (fun n => parseElems n) _ with
    | Except.ok (es, r) => Except.ok (classifyArr es r)
    | Except.error e => Except.error e) = _
  rw [(pe_msg_inner hwf).1 r]
  simp [classifyArr]

/-- Every proper prefix of a well-formed message frame is `Incomplete`. -/
theorem parseRESP_msgFrame_take {d1 ch d2 p : List Nat} (hwf : MsgWF d1 ch d2 p)
    (k : Nat) (hk : k < (msgFrame d1 ch d2 p).length) :
    parseRESP ((msgFrame d1 ch d2 p).take k) = .error .incomplete := by
  rw [msgFrame_assoc] at hk ⊢
  cases k with
  | zero => rfl
  | succ j =>
    rw [List.take_succ_cons]
    show (match pbind parseNum (fun n => parseElems n) _ with
      | Except.ok (es, r) => Except.ok (classifyArr es r)
      | Except.error e => Except.error e) = _
    rw [(pe_msg_inner hwf).2 j (by simpa using Nat.lt_of_succ_lt_succ hk)]

/-! ## UTF-8 and rightmost-occurrence lemmas -/

theorem utf8ValidUpTo_le : ∀ l : List Nat, utf8ValidUpTo l ≤ l.length
  | [] => Nat.le_refl 0
  | [b] => by
    simp only [utf8ValidUpTo]
    split
    · simp
    · simp
  | [b, c1] => by
    simp only [utf8ValidUpTo]
    split
    · have h := utf8ValidUpTo_le [c1]
      simp only [utf8ValidUpTo] at h
      simp only [List.length_cons, List.length_nil] at h ⊢
      omega
    · split
      · simp
      · simp
  | [b, c1, c2] => by
    simp only [utf8ValidUpTo]
    split
    · have h := utf8ValidUpTo_le [c1, c2]
      simp only [utf8ValidUpTo] at h
      simp only [List.length_cons, List.length_nil] at h ⊢
      omega
    · split
      · have h := utf8ValidUpTo_le [c2]
        simp only [utf8ValidUpTo] at h
        simp only [List.length_cons, List.length_nil] at h ⊢
        omega
      · split
        · simp
        · simp
  | b :: c1 :: c2 :: c3 :: rest => by
    simp only [utf8ValidUpTo]
    split
    · have h := utf8ValidUpTo_le (c1 :: c2 :: c3 :: rest)
      simp only [List.length_cons] at h ⊢
      omega
    · split
      · have h := utf8ValidUpTo_le (c2 :: c3 :: rest)
        simp only [List.length_cons] at h ⊢
        omega
      · split
        · have h := utf8ValidUpTo_le (c3 :: rest)
          simp only [List.length_cons] at h ⊢
          omega
        · split
          · have h := utf8ValidUpTo_le rest
            simp only [List.length_cons] at h ⊢
            omega
          · simp

theorem utf8ValidUpTo_low (b : Nat) (hb : b ≤ 127) (rest : List Nat) :
    utf8ValidUpTo (b :: rest) = utf8ValidUpTo rest + 1 := by
  match rest with
  | [] => simp [utf8ValidUpTo, hb]
  | [c1] => simp [utf8ValidUpTo, hb]
  | [c1, c2] => simp [utf8ValidUpTo, hb]
  | c1 :: c2 :: c3 :: r => simp [utf8ValidUpTo, hb]

theorem utf8ValidUpTo_pos_of_low (b : Nat) (hb : b ≤ 127) (rest : List Nat) :
    1 ≤ utf8ValidUpTo (b :: rest) := by
  rw [utf8ValidUpTo_low b hb]; omega

theorem isPrefixOf_nil_of_ne {pat : List Nat} (h : pat ≠ []) :
    pat.isPrefixOf ([] : List Nat) = false := by
  cases pat with
  | nil => exact absurd rfl h
  | cons a as => rfl

theorem rfindSub_none_iff {pat : List Nat} (hpat : pat ≠ []) :
    ∀ l : List Nat, (rfindSub pat l = none ↔ ∀ i, pat.isPrefixOf (l.drop i) = false) := by
  intro l
  induction l with
  | nil =>
    constructor
    · intro _ i
      rw [List.drop_nil]
      exact isPrefixOf_nil_of_ne hpat
    · intro _
      simp [rfindSub, isPrefixOf_nil_of_ne hpat]
  | cons b rest ih =>
    constructor
    · intro h i
      simp only [rfindSub] at h
      rcases hrest : rfindSub pat rest with _ | j
      · rw [hrest] at h
        simp only [] at h
        cases i with
        | zero =>
          by_contra hc
          simp only [List.drop_zero] at hc
          rw [Bool.not_eq_false] at hc
          rw [hc] at h
          simp at h
        | succ i' =>
          rw [List.drop_succ_cons]
          exact (ih.mp hrest) i'
      · rw [hrest] at h; simp at h
    · intro h
      simp only [rfindSub]
      have hrest : rfindSub pat rest = none := by
        rw [ih]
        intro i
        have := h (i + 1)
        rwa [List.drop_succ_cons] at this
      rw [hrest]
      have h0 := h 0
      rw [List.drop_zero] at h0
      simp [h0]

theorem rfindSub_eq_some {pat : List Nat} (hpat : pat ≠ []) :
    ∀ (l : List Nat) (i : Nat), pat.isPrefixOf (l.drop i) = true →
      (∀ j, i < j → pat.isPrefixOf (l.drop j) = false) →
      rfindSub pat l = some i := by
  intro l
  induction l with
  | nil =>
    intro i hi _
    rw [List.drop_nil, isPrefixOf_nil_of_ne hpat] at hi
    exact absurd hi (by simp)
  | cons b rest ih =>
    intro i hi hlater
    cases i with
    | zero =>
      have hrest : rfindSub pat rest = none := by
        rw [rfindSub_none_iff hpat]
        intro j
        have := hlater (j + 1) (Nat.succ_pos j)
        rwa [List.drop_succ_cons] at this
      rw [List.drop_zero] at hi
      simp [rfindSub, hrest, hi]
    | succ i' =>
      rw [List.drop_succ_cons] at hi
      have hrest : rfindSub pat rest = some i' := by
        apply ih i' hi
        intro j hj
        have := hlater (j + 1) (Nat.succ_lt_succ hj)
        rwa [List.drop_succ_cons] at this
      simp [rfindSub, hrest]

theorem hasSub_eq_false_iff (pat : List Nat) :
    ∀ l : List Nat, (hasSub pat l = false ↔ ∀ i, pat.isPrefixOf (l.drop i) = false) := by
  intro l
  induction l with
  | nil =>
    simp only [hasSub, List.drop_nil]
    exact ⟨fun h _ => h, fun h => h 0⟩
  | cons b rest ih =>
    simp only [hasSub, Bool.or_eq_false_iff]
    constructor
    · rintro ⟨h0, hr⟩ i
      cases i with
      | zero => simpa using h0
      | succ i' => rw [List.drop_succ_cons]; exact (ih.mp hr) i'
    · intro h
      refine ⟨by simpa using h 0, ih.mpr fun i => ?_⟩
      have := h (i + 1)
      rwa [List.drop_succ_cons] at this

/-- After a complete message the backward scan of `rewind_to_prev_msg` lands
exactly at the message's start byte: the dead prefix ends with CRLF (or is
empty) and the message contains no interior `"\r\n*"`. -/
theorem rfind_msg_boundary (A : List Nat) (M' : List Nat)
    (hA : A = [] ∨ ∃ A0, A = A0 ++ [13, 10])
    (hno : hasSub [13, 10, 42] ((42 :: M').drop 1) = false) :
    (match rfindSub [13, 10, 42] (A ++ 42 :: M') with
     | some i => i + 2
     | none => 0) = A.length := by
  have hpat : ([13, 10, 42] : List Nat) ≠ [] := by simp
  have hnoM : ∀ i, ([13, 10, 42] : List Nat).isPrefixOf ((42 :: M').drop i) = false := by
    intro i
    cases i with
    | zero => simp [List.isPrefixOf]
    | succ i' =>
      rw [List.drop_succ_cons]
      have := (hasSub_eq_false_iff [13, 10, 42] ((42 :: M').drop 1)).mp hno i'
      simpa using this
  rcases hA with hA | ⟨A0, hA⟩
  · subst hA
    have : rfindSub [13, 10, 42] ([] ++ 42 :: M') = none := by
      rw [rfindSub_none_iff hpat]
      simpa using hnoM
    rw [this]
    rfl
  · subst hA
    have hocc : ([13, 10, 42] : List Nat).isPrefixOf
        (((A0 ++ [13, 10]) ++ 42 :: M').drop A0.length) = true := by
      have : (A0 ++ [13, 10]) ++ 42 :: M' = A0 ++ 13 :: 10 :: 42 :: M' := by simp
      rw [this]
      have hd : (A0 ++ 13 :: 10 :: 42 :: M').drop (A0.length + 0) = 13 :: 10 :: 42 :: M' :=
        List.drop_append 0
      rw [Nat.add_zero] at hd
      rw [hd]
      simp [List.isPrefixOf]
    have hlater : ∀ j, A0.length < j →
        ([13, 10, 42] : List Nat).isPrefixOf (((A0 ++ [13, 10]) ++ 42 :: M').drop j) = false := by
      intro j hj
      have hre : (A0 ++ [13, 10]) ++ 42 :: M' = A0 ++ 13 :: 10 :: 42 :: M' := by simp
      rw [hre]
      obtain ⟨t, ht⟩ : ∃ t, j = A0.length + (t + 1) := by
        refine ⟨j - A0.length - 1, by omega⟩
      subst ht
      rw [List.drop_append (t + 1)]
      match t with
      | 0 => simp [List.isPrefixOf]
      | 1 => simp [List.isPrefixOf]
      | Nat.succ (Nat.succ t') =>
        show ([13, 10, 42] : List Nat).isPrefixOf ((42 :: M').drop (t' + 1)) = false
        exact hnoM (t' + 1)
    rw [rfindSub_eq_some hpat _ A0.length hocc hlater]
    simp

/-! ## Poll evaluation lemmas -/

theorem msgFrame_ne_nil (d1 ch d2 p : List Nat) : msgFrame d1 ch d2 p ≠ [] := by
  rw [msgFrame_assoc]; simp

/-- Polling a window that holds exactly one complete, namespace-matching,
decodable message advances `read_start` to `write_end` and yields the decoded
pair. -/
theorem poll_msg {st : Manager} {d1 ch d2 p tlb : List Nat} {tl : Timeline} {ev : Event}
    (hwf : MsgWF d1 ch d2 p)
    (hwin : st.window = msgFrame d1 ch d2 p)
    (hvalid : utf8Valid (msgFrame d1 ch d2 p))
    (hns : timeline_matching_ns ch st.ns = some tlb)
    (htl : Timeline.from_redis_text tlb st.tag_id_cache = .ok tl)
    (hev : eventFromTxt p = .ok ev) :
    st.poll = ({ st with unread_idx := (st.unread_idx.2, st.unread_idx.2) },
               .ready (some (tl, ev))) := by
  have hM := parseRESP_msgFrame hwf []
  rw [List.append_nil] at hM
  have hne := msgFrame_ne_nil d1 ch d2 p
  unfold utf8Valid at hvalid
  simp only [Manager.poll, hwin, hvalid, List.take_length, List.drop_length, hne,
    not_false_iff, if_pos, hM, hns, htl, hev, List.length_nil, Nat.sub_zero]
  simp [hne]

/-- Polling a window whose valid UTF-8 prefix is a nonempty incomplete frame
compacts the buffer and reports `NotReady`. -/
theorem poll_incomplete {st : Manager} {W : List Nat}
    (hwin : st.window = W)
    (hne : W.take (utf8ValidUpTo W) ≠ [])
    (hinc : parseRESP (W.take (utf8ValidUpTo W)) = .error .incomplete) :
    st.poll = (st.copy_partial_msg, .notReady) := by
  simp only [Manager.poll, hwin, hne, not_false_iff, if_pos, hinc]
  simp [hne]

/-- Polling an empty window resets the indices to `(0, 0)`. -/
theorem poll_empty {st : Manager} (hwin : st.window = []) :
    st.poll = ({ st with unread_idx := (0, 0) }, .notReady) := by
  simp only [Manager.poll, hwin, List.take_nil, List.drop_nil, ne_eq,
    not_true_eq_false, if_neg, ite_false]

/-! ## C8 — buffer compaction preserves the unread window -/

/-- C8: compaction after an `Incomplete` parse preserves the unread bytes
exactly: for every buffer state with `read_start ≤ write_end ≤ buffer length`,
after `copy_partial_msg` the read cursor is 0, the write cursor is the old
window length, and the front of the buffer is byte-for-byte the old unread
window — no byte lost, duplicated or reordered. -/
theorem C8_compaction_preserves_window (st : Manager) (buf : List Nat) (rs we : Nat)
    (hin : st.input = buf) (hidx : st.unread_idx = (rs, we))
    (h1 : rs ≤ we) (h2 : we ≤ buf.length) :
    (st.copy_partial_msg).unread_idx = (0, we - rs) ∧
      (st.copy_partial_msg).input.take (we - rs) = (buf.take we).drop rs := by
  have hwlen : ((buf.take we).drop rs).length = we - rs := by
    simp only [List.length_drop, List.length_take]
    omega
  simp only [Manager.copy_partial_msg, hin, hidx]
  refine ⟨trivial, ?_⟩
  by_cases h0 : rs = 0
  · subst h0
    simp [List.take_take]
  · rw [if_neg h0]
    by_cases hbig : rs ≥ we - rs
    · rw [if_pos hbig]
      rw [List.take_append_eq_append_take, hwlen]
      simp only [Nat.sub_self, List.take_zero, List.append_nil]
      exact List.take_of_length_le (le_of_eq hwlen)
    · rw [if_neg hbig]
      rw [List.drop_take]

/-- C8 witness: a concrete compaction (buffer `[1,2,3,4,5]`, window `[3..5)`). -/
theorem C8_compaction_preserves_window_witness :
    (Manager.mk [1, 2, 3, 4, 5] (3, 5) [] 0 [] [] none).copy_partial_msg.unread_idx = (0, 2) ∧
      (Manager.mk [1, 2, 3, 4, 5] (3, 5) [] 0 [] [] none).copy_partial_msg.input.take 2 =
        (([1, 2, 3, 4, 5] : List Nat).take 5).drop 3 :=
  C8_compaction_preserves_window _ [1, 2, 3, 4, 5] 3 5 rfl rfl (by decide) (by decide)

/-! ## C3 — namespace mismatch (code bug: frame never consumed) -/

/-- The C3 failing input: namespace `"ns"`, one well-formed message on channel
`"other:timeline:public"` with payload `"hi"` (scenario S2). -/
def c3Frame : List Nat :=
  msgFrame (ascii "21") (ascii "other:timeline:public") (ascii "2") (ascii "hi")

/-- The manager state holding the C3 frame as its whole unread window. -/
def c3St : Manager :=
  ⟨c3Frame, (0, c3Frame.length), [], 0, [], [], some (ascii "ns")⟩

/-- C3: the claim (and spec 4.5.2 / scenario S2) requires a complete
well-formed message on a non-matching channel to be fully consumed:
`read_start` advanced by the frame's byte count.  The code's namespace-mismatch
branch (manager.rs line 66) returns `Ready(None)` without touching
`unread_idx.0`: polling the state whose window is exactly the frame leaves the
state unchanged (`read_start` still 0), so `send_msgs` re-parses the same
frame forever. -/
theorem C3_ns_mismatch_frame_not_consumed :
    c3St.poll = (c3St, .ready none) ∧ (c3St.poll).1.unread_idx.1 = 0 := by
  constructor
  · decide
  · decide

/-! ## C7 — invalid UTF-8 suffix (code bug: NonMessage skips it) -/

/-- The C7 failing input: a complete `+OK\r\n` acknowledgment followed by the
lone continuation byte `0x80` (an invalid UTF-8 suffix starting at index 5). -/
def c7St : Manager :=
  ⟨[43, 79, 75, 13, 10, 128], (0, 6), [], 0, [], [], none⟩

/-- C7: the claim requires that no poll outcome advance `read_start` past the
first byte of the invalid UTF-8 suffix (index 5 here).  The `NonMsg` branch of
`Manager::poll` (manager.rs line 70) computes
`read_start = write_end - leftover.len()` and — unlike the `Msg` branch on
line 60 — omits `- invalid.len()`, so it advances `read_start` to 6, silently
skipping the partial code point. -/
theorem C7_nonmsg_advances_past_invalid_suffix :
    c7St.poll = ({ c7St with unread_idx := (6, 6) }, .ready none) ∧
      5 < (c7St.poll).1.unread_idx.1 := by
  constructor
  · decide
  · decide

/-! ## C4 — malformed frame (code bug: no recovery, nothing delivered) -/

/-- The C4 failing input (scenario S5 with the channel length header
corrected to 15): garbage bytes followed by a complete well-formed
`timeline:public` message with payload `"hi"`. -/
def c4Frame : List Nat :=
  ascii "garbage\r\n" ++ msgFrame (ascii "15") (ascii "timeline:public") (ascii "2") (ascii "hi")

/-- The C4 manager state: the garbage-then-message buffer, one open ready
channel subscribed to `Public`. -/
def c4St : Manager :=
  ⟨c4Frame, (0, c4Frame.length), [(.public, [(0, ⟨true, false, []⟩)])], 1, [], [], none⟩

/-- C4: the claim (and spec 4.5.2/7) requires a malformed frame to be
recovered from: log once, advance to the next frame boundary, deliver the
following message's event.  In the code, `Manager::poll` returns the parse
error (manager.rs line 77) and the `while let Ok(..)` in `send_msgs` (line 96)
silently drops it: the dispatch loop exits with the state unchanged —
`read_start` still 0, no event delivered to the subscribed channel — and every
subsequent `send_msgs` pass hits the same error again. -/
theorem C4_malformed_frame_not_recovered :
    c4St.send_loop 5 = (c4St, .errored (.redisParseErr .invalid c4Frame)) := by
  decide

/-! ## C5 — table invariant (corrected: fan-out can insert an empty entry) -/

/-- The C5 counterexample input: a well-formed decodable `timeline:public`
message while no channel at all is subscribed. -/
def c5Frame : List Nat :=
  msgFrame (ascii "15") (ascii "timeline:public") (ascii "32")
    (ascii "\x7b\"event\":\"delete\",\"payload\":\"1\"\x7d")

/-- The C5 counterexample state: empty subscription table, the message in the
buffer. -/
def c5St : Manager :=
  ⟨c5Frame, (0, c5Frame.length), [], 0, [], [], none⟩

/-- C5 counterexample: the claim asserts the table contains a timeline iff it
has at least one channel, after every fan-out step.  Starting from a state
satisfying the invariant, one `send_msgs` dispatch pass
(`timelines.entry(tl).or_default()`, manager.rs line 98) inserts `Public` with
an empty channel map, violating the invariant. -/
theorem C5_fanout_inserts_empty_entry :
    c5St.invB = true ∧ ((c5St.send_loop 3).1).invB = false ∧
      lookupTL .public ((c5St.send_loop 3).1).timelines = some [] := by
  refine ⟨by decide, by decide, by decide⟩

/-! ## C10 — WebSocket adapter dispatch -/

/-- C10: in `Ws::send_to` (ws.rs lines 53-78) a `Ping` is forwarded regardless
of the pair's timeline; every non-Ping event is forwarded only when its
timeline equals the subscription's target (so events on any other timeline are
never sent); and a forwarded `Update` has passed the block filters and, on
public timelines with a language set, the language allow-list. -/
theorem C10_ws_forwards_dispatch :
    (∀ sub tl, Ws.forwards sub tl .ping = true) ∧
    (∀ sub tl ev, Ws.forwards sub tl ev = true → ev = .ping ∨ tl = sub.timeline) ∧
    (∀ sub tl ev, ev ≠ .ping → sub.timeline ≠ tl → Ws.forwards sub tl ev = false) ∧
    (∀ sub tl u, Ws.forwards sub tl (.update u) = true →
      u.involved_users.any (fun x => sub.blocks.blocked_users.contains x) = false ∧
      sub.blocks.blocking_users.contains u.author = false ∧
      sub.blocks.blocked_domains.contains u.sent_from = false ∧
      (tl.is_public = true → u.language_unset = false → sub.allowed_langs ≠ [] →
        sub.allowed_langs.contains u.language = true)) := by
  refine ⟨?_, ?_, ?_, ?_⟩
  · intro sub tl
    simp [Ws.forwards]
  · intro sub tl ev h
    by_cases hp : ev = .ping
    · exact Or.inl hp
    · right
      by_contra htl
      have hne : ¬ (sub.timeline = tl) := fun he => htl he.symm
      unfold Ws.forwards at h
      rw [if_neg hp, if_neg hne] at h
      exact absurd h (by simp)
  · intro sub tl ev hp htl
    simp only [Ws.forwards, if_neg hp, if_neg htl]
  · intro sub tl u h
    have hp : (Event.update u) ≠ .ping := by simp
    simp only [Ws.forwards, if_neg hp] at h
    by_cases htl : sub.timeline = tl
    · simp only [if_pos htl, Event.get_update_payload] at h
      split_ifs at h with h1 h2 h3 h4
      · refine ⟨by simpa using h2, by simpa using h3, by simpa using h4, ?_⟩
        intro hpub hunset hne
        have hemp : sub.allowed_langs.isEmpty = false := by
          cases hal : sub.allowed_langs with
          | nil => exact absurd hal hne
          | cons a as => simp [hal]
        simp only [hpub, hunset, hemp, Bool.not_false, Bool.true_and, Bool.and_true] at h1
        simpa using h1
    · rw [if_neg htl] at h
      exact absurd h (by simp)

/-- C10 witness: concrete instances discharging each implication's
hypotheses. -/
theorem C10_ws_forwards_dispatch_witness :
    Ws.forwards ⟨.public, none, ⟨[], [], []⟩, []⟩ .publicLocal .ping = true ∧
      ((Event.delete [49]) = .ping ∨ Timeline.public = (Subscription.mk .public none ⟨[], [], []⟩ []).timeline) ∧
      Ws.forwards ⟨.public, none, ⟨[], [], []⟩, []⟩ .publicLocal (.delete [49]) = false ∧
      ((⟨[], true, [], 0, []⟩ : UpdatePayload).involved_users.any
          (fun x => (Subscription.mk .public none ⟨[], [], []⟩ []).blocks.blocked_users.contains x) = false) :=
  ⟨C10_ws_forwards_dispatch.1 _ _,
   C10_ws_forwards_dispatch.2.1 ⟨.public, none, ⟨[], [], []⟩, []⟩ .public (.delete [49]) (by decide),
   C10_ws_forwards_dispatch.2.2.1 ⟨.public, none, ⟨[], [], []⟩, []⟩ .publicLocal (.delete [49])
     (by decide) (by decide),
   (C10_ws_forwards_dispatch.2.2.2 ⟨.public, none, ⟨[], [], []⟩, []⟩ .public ⟨[], true, [], 0, []⟩
     (by decide)).1⟩

/-! ## C5 — amended invariant: preservation lemmas -/

theorem poll_preserves_timelines (st : Manager) : ((st.poll).1).timelines = st.timelines := by
  unfold Manager.poll Manager.copy_partial_msg
  simp only []
  split
  · split
    · split
      · split
        · rfl
        · split
          · rfl
          · rfl
      · rfl
    · rfl
    · rfl
    · rfl
  · rfl

theorem rewindAux_preserves_timelines :
    ∀ (fuel : Nat) (st : Manager), (Manager.rewindAux fuel st).timelines = st.timelines
  | 0, st => rfl
  | fuel + 1, st => by
    simp only [Manager.rewindAux]
    split
    all_goals first
      | exact poll_preserves_timelines _
      | (rw [rewindAux_preserves_timelines fuel _]; exact poll_preserves_timelines _)

theorem insertChan_ne_nil (id : Nat) (c : Channel) : ∀ l, insertChan id c l ≠ []
  | [] => by simp [insertChan]
  | (id', c') :: rest => by
    simp only [insertChan]
    split <;> simp

theorem fanOutChannels_length (ev : Event) :
    ∀ l, ((fanOutChannels ev l).1).length = l.length
  | [] => rfl
  | (id, c) :: rest => by
    simp only [fanOutChannels]
    split
    · rfl
    · simp only [List.length_cons]
      rw [fanOutChannels_length ev rest]

theorem invB_setTL {t : Timeline} {cs : List (Nat × Channel)} (hcs : cs ≠ []) :
    ∀ l, l.all (fun e => !e.2.isEmpty) = true →
      (setTL t cs l).all (fun e => !e.2.isEmpty) = true
  | [] => fun _ => rfl
  | (t', cs') :: rest => by
    intro h
    simp only [List.all_cons, Bool.and_eq_true] at h
    simp only [setTL]
    split
    · simp only [List.all_cons, Bool.and_eq_true]
      refine ⟨?_, h.2⟩
      cases cs with
      | nil => exact absurd rfl hcs
      | cons a as => rfl
    · simp only [List.all_cons, Bool.and_eq_true]
      exact ⟨h.1, invB_setTL hcs rest h.2⟩

theorem lookupTL_all {P : Timeline × List (Nat × Channel) → Bool} :
    ∀ l, l.all P = true → ∀ t cs, lookupTL t l = some cs → P (t, cs) = true
  | [] => by
    intro _ t cs h
    simp [lookupTL] at h
  | (t', cs') :: rest => by
    intro hall t cs h
    simp only [List.all_cons, Bool.and_eq_true] at hall
    simp only [lookupTL] at h
    split at h
    · next heq =>
      cases h
      rw [← heq]
      exact hall.1
    · exact lookupTL_all rest hall.2 t cs h

theorem invB_insert_table {t : Timeline} {cs : List (Nat × Channel)} (hcs : cs ≠ [])
    {tls : List (Timeline × List (Nat × Channel))} (h : tls.all (fun e => !e.2.isEmpty) = true) :
    ((if (lookupTL t tls).isSome then setTL t cs tls else tls ++ [(t, cs)]).all
      (fun e => !e.2.isEmpty)) = true := by
  split
  · exact invB_setTL hcs tls h
  · rw [List.all_append, h]
    simp only [List.all_cons, List.all_nil, Bool.true_and, Bool.and_true]
    cases hc : cs with
    | nil => exact absurd hc hcs
    | cons a as => rfl

theorem subscribe_preserves_invB (st : Manager) (sub : Subscription) (chan : Channel)
    (h : st.invB = true) : ((st.subscribe sub chan).1).invB = true := by
  unfold Manager.subscribe Manager.invB
  unfold Manager.invB at h
  simp only []
  rcases hh : sub.hashtag_name with _ | hname <;>
    rcases ht : sub.timeline.tag with _ | tid <;>
      (dsimp only; exact invB_insert_table (insertChan_ne_nil _ _ _) h)

theorem send_pings_invB (st : Manager) : ((st.send_pings).1).invB = true := by
  unfold Manager.send_pings Manager.invB
  simp only []
  rw [List.all_eq_true]
  intro e he
  rw [List.mem_filter] at he
  have h2 := he.2
  simp only [ne_eq, decide_eq_true_eq] at h2
  cases hc : e.2 with
  | nil => exact absurd hc h2
  | cons a as => simp [hc]

theorem fan_out_preserves_invB (st : Manager) (tl : Timeline) (ev : Event)
    (h : st.invB = true) (hmem : (lookupTL tl st.timelines).isSome = true) :
    ((st.fan_out tl ev).1).invB = true := by
  obtain ⟨cs, hcs⟩ := Option.isSome_iff_exists.mp hmem
  have hcs_ne : cs ≠ [] := by
    have := lookupTL_all st.timelines h tl cs hcs
    intro hnil
    rw [hnil] at this
    simp at this
  have hres_ne : (fanOutChannels ev ((lookupTL tl st.timelines).getD [])).1 ≠ [] := by
    rw [hcs]
    intro hnil
    have hlen := fanOutChannels_length ev cs
    rw [Option.getD_some] at hnil
    rw [hnil] at hlen
    simp only [List.length_nil] at hlen
    exact hcs_ne (List.eq_nil_of_length_eq_zero hlen.symm)
  have hinv2 : (setTL tl (fanOutChannels ev ((lookupTL tl st.timelines).getD [])).1
      st.timelines).all (fun e => !e.2.isEmpty) = true :=
    invB_setTL hres_ne st.timelines h
  unfold Manager.fan_out
  simp only [hmem, if_true]
  split
  · unfold Manager.rewind_to_prev_msg Manager.invB
    dsimp only
    rw [rewindAux_preserves_timelines]
    exact hinv2
  · unfold Manager.invB
    dsimp only
    exact hinv2

/-- C5 (amended): the table invariant — a timeline key exists iff it has at
least one channel — is preserved by every `subscribe`, is (re)established by
every ping sweep, and is preserved by a fan-out step whenever the decoded
event's timeline is already present in the table.  (As the counterexample
shows, a fan-out step for an absent timeline inserts an empty entry, which the
next sweep removes.) -/
theorem C5_table_invariant_amended :
    (∀ (st : Manager) (sub : Subscription) (chan : Channel),
        st.invB = true → ((st.subscribe sub chan).1).invB = true) ∧
    (∀ st : Manager, ((st.send_pings).1).invB = true) ∧
    (∀ (st : Manager) (tl : Timeline) (ev : Event),
        st.invB = true → (lookupTL tl st.timelines).isSome = true →
        ((st.fan_out tl ev).1).invB = true) :=
  ⟨subscribe_preserves_invB, send_pings_invB, fan_out_preserves_invB⟩

/-- C5 witness: the amended invariant applied at concrete states. -/
theorem C5_table_invariant_amended_witness :
    (((⟨[], (0, 0), [], 0, [], [], none⟩ : Manager).subscribe
        ⟨.public, none, ⟨[], [], []⟩, []⟩ ⟨true, false, []⟩).1).invB = true ∧
    (((⟨[], (0, 0), [(.public, [(0, ⟨true, false, []⟩)])], 1, [], [], none⟩ : Manager).fan_out
        .public .ping).1).invB = true :=
  ⟨C5_table_invariant_amended.1 _ _ _ (by decide),
   C5_table_invariant_amended.2.2 _ .public .ping (by decide) (by decide)⟩

/-! ## C2 — per-pass at-most-once delivery and deferral on backpressure -/

theorem trySend_sent (c : Channel) (ev : Event) :
    ((c.trySend ev).1).sent = c.sent ∨ ((c.trySend ev).1).sent = c.sent ++ [ev] := by
  unfold Channel.trySend
  split
  · exact Or.inl rfl
  · exact Or.inr rfl

theorem fanOutChannels_forall2 (ev : Event) :
    ∀ chans, List.Forall₂
      (fun a b => a.1 = b.1 ∧ (b.2.sent = a.2.sent ∨ b.2.sent = a.2.sent ++ [ev]))
      chans ((fanOutChannels ev chans).1)
  | [] => List.Forall₂.nil
  | (id, c) :: rest => by
    simp only [fanOutChannels]
    split
    · refine List.Forall₂.cons ⟨rfl, Or.inl rfl⟩ ?_
      induction rest with
      | nil => exact List.Forall₂.nil
      | cons a l ih => exact List.Forall₂.cons ⟨rfl, Or.inl rfl⟩ ih
    · exact List.Forall₂.cons ⟨rfl, trySend_sent c ev⟩ (fanOutChannels_forall2 ev rest)

theorem fanOutChannels_abort_iff (ev : Event) :
    ∀ chans, ((fanOutChannels ev chans).2 = true ↔
      ∃ c ∈ chans, c.2.ready = false ∧ c.2.closed = false)
  | [] => by simp [fanOutChannels]
  | (id, c) :: rest => by
    simp only [fanOutChannels]
    split
    · next hd =>
      simp only [Bool.and_eq_true, Bool.not_eq_true'] at hd
      constructor
      · intro _
        exact ⟨(id, c), List.mem_cons_self _ _, hd.1, hd.2⟩
      · intro _
        rfl
    · next hd =>
      rw [fanOutChannels_abort_iff ev rest]
      constructor
      · rintro ⟨x, hx, hprop⟩
        exact ⟨x, List.mem_cons_of_mem _ hx, hprop⟩
      · rintro ⟨x, hx, hprop⟩
        rcases List.mem_cons.mp hx with heq | hx'
        · exfalso
          apply hd
          rw [heq] at hprop
          simp only at hprop
          simp [hprop.1, hprop.2]
        · exact ⟨x, hx', hprop⟩

theorem fanOutChannels_abort_frontier (ev : Event) :
    ∀ chans, (fanOutChannels ev chans).2 = true →
      ∃ n c rest, chans.drop n = c :: rest ∧ c.2.ready = false ∧ c.2.closed = false ∧
        ((fanOutChannels ev chans).1).drop n = c :: rest
  | [] => by simp [fanOutChannels]
  | (id, c) :: rest => by
    simp only [fanOutChannels]
    split
    · next hd =>
      intro _
      simp only [Bool.and_eq_true, Bool.not_eq_true'] at hd
      exact ⟨0, (id, c), rest, rfl, hd.1, hd.2, rfl⟩
    · next hd =>
      intro hab
      obtain ⟨n, c', rest', h1, h2, h3, h4⟩ := fanOutChannels_abort_frontier ev rest hab
      exact ⟨n + 1, c', rest', by simpa using h1, h2, h3, by simpa using h4⟩

/-- C2: in one fan-out pass of `send_msgs` each channel receives the decoded
event at most once (its delivered list grows by at most one copy); the pass
aborts exactly when some open channel reports `NotReady`; from the first such
channel on, no channel receives the event; and when a fan-out aborts, the
dispatch loop returns `NotReady` (deferring the whole event to the next pass,
via the rewind of C1). -/
theorem C2_at_most_once_and_defer :
    (∀ (ev : Event) (chans : List (Nat × Channel)),
        List.Forall₂
          (fun a b => a.1 = b.1 ∧ (b.2.sent = a.2.sent ∨ b.2.sent = a.2.sent ++ [ev]))
          chans ((fanOutChannels ev chans).1)) ∧
    (∀ (ev : Event) (chans : List (Nat × Channel)),
        ((fanOutChannels ev chans).2 = true ↔
          ∃ c ∈ chans, c.2.ready = false ∧ c.2.closed = false)) ∧
    (∀ (ev : Event) (chans : List (Nat × Channel)),
        (fanOutChannels ev chans).2 = true →
        ∃ n c rest, chans.drop n = c :: rest ∧ c.2.ready = false ∧ c.2.closed = false ∧
          ((fanOutChannels ev chans).1).drop n = c :: rest) ∧
    (∀ (st st1 : Manager) (tl : Timeline) (ev : Event) (fuel : Nat),
        st.poll = (st1, .ready (some (tl, ev))) → (st1.fan_out tl ev).2 = true →
        st.send_loop (fuel + 1) = ((st1.fan_out tl ev).1, .deferred)) := by
  refine ⟨fanOutChannels_forall2, fanOutChannels_abort_iff, fanOutChannels_abort_frontier, ?_⟩
  intro st st1 tl ev fuel hpoll hab
  simp only [Manager.send_loop, hpoll]
  simp only [hab, if_true]

/-- C2 witness: a singleton channel map whose only channel is open but not
ready, and a concrete deferring dispatch step. -/
theorem C2_at_most_once_and_defer_witness :
    (∃ n c rest, ([((0 : Nat), (⟨false, false, []⟩ : Channel))].drop n = c :: rest ∧
        c.2.ready = false ∧ c.2.closed = false ∧
        ((fanOutChannels .ping [(0, ⟨false, false, []⟩)]).1).drop n = c :: rest)) :=
  C2_at_most_once_and_defer.2.2.1 .ping [(0, ⟨false, false, []⟩)] (by decide)

/-! ## C9 — subscribe/unsubscribe command transitions -/

theorem trySend_ok_iff (c : Channel) (ev : Event) :
    ((c.trySend ev).2 = false) ↔ chanDead c = true := by
  unfold Channel.trySend chanDead
  split
  · next h => simpa using h
  · next h => simpa using h

theorem sweepChans_cons (id : Nat) (c : Channel) (rest : List (Nat × Channel)) :
    sweepChans ((id, c) :: rest) =
      if (c.trySend .ping).2 = true then (id, (c.trySend .ping).1) :: sweepChans rest
      else sweepChans rest := by
  unfold sweepChans
  rw [List.filterMap_cons]
  by_cases hp : (c.trySend .ping).2 = true
  · simp [hp]
  · simp [hp]

theorem sweepChans_nil_iff :
    ∀ cs : List (Nat × Channel),
      (sweepChans cs = [] ↔ cs.all (fun idc => chanDead idc.2) = true)
  | [] => by simp [sweepChans]
  | (id, c) :: rest => by
    rw [sweepChans_cons]
    by_cases hd : chanDead c = true
    · have hts : (c.trySend .ping).2 = false := (trySend_ok_iff c .ping).mpr hd
      rw [if_neg (by simp [hts])]
      simp only [List.all_cons, hd, Bool.true_and]
      exact sweepChans_nil_iff rest
    · have hts : (c.trySend .ping).2 = true := by
        rcases Bool.eq_false_or_eq_true (c.trySend .ping).2 with h | h
        · exact h
        · exact absurd ((trySend_ok_iff c .ping).mp h) hd
      rw [if_pos hts]
      simp only [List.all_cons]
      constructor
      · intro h
        exact absurd h (List.cons_ne_nil _ _)
      · intro h
        rw [Bool.and_eq_true] at h
        exact absurd h.1 hd

theorem insertChan_length_of_fresh (id : Nat) (c : Channel) :
    ∀ l : List (Nat × Channel), (∀ e ∈ l, e.1 ≠ id) →
      (insertChan id c l).length = l.length + 1
  | [] => fun _ => rfl
  | (id', c') :: rest => by
    intro h
    simp only [insertChan]
    rw [if_neg (h (id', c') (List.mem_cons_self _ _))]
    simp only [List.length_cons]
    rw [insertChan_length_of_fresh id c rest (fun e he => h e (List.mem_cons_of_mem _ he))]

theorem lookupTL_eq_none_iff (t : Timeline) :
    ∀ l : List (Timeline × List (Nat × Channel)),
      (lookupTL t l = none ↔ t ∉ l.map Prod.fst)
  | [] => by simp [lookupTL]
  | (t', cs') :: rest => by
    simp only [lookupTL, List.map_cons, List.mem_cons]
    split
    · next h => simp [h]
    · next h =>
      rw [lookupTL_eq_none_iff t rest]
      constructor
      · intro hr hor
        rcases hor with hor | hor
        · exact h hor.symm
        · exact hr hor
      · intro hn
        exact fun hm => hn (Or.inr hm)

theorem mem_of_lookupTL_some {t : Timeline} {cs : List (Nat × Channel)} :
    ∀ {l : List (Timeline × List (Nat × Channel))},
      lookupTL t l = some cs → (t, cs) ∈ l := by
  intro l
  induction l with
  | nil => intro h; simp [lookupTL] at h
  | cons e rest ih =>
    intro h
    rcases e with ⟨t', cs'⟩
    simp only [lookupTL] at h
    split at h
    · next heq =>
      cases h
      rw [heq]
      exact List.mem_cons_self _ _
    · exact List.mem_cons_of_mem _ (ih h)

theorem lookupTL_some_of_mem {t : Timeline} {cs : List (Nat × Channel)} :
    ∀ {l : List (Timeline × List (Nat × Channel))}, (l.map Prod.fst).Nodup →
      (t, cs) ∈ l → lookupTL t l = some cs := by
  intro l
  induction l with
  | nil => intro _ h; simp at h
  | cons e rest ih =>
    intro hnd h
    rcases e with ⟨t', cs'⟩
    simp only [List.map_cons, List.nodup_cons] at hnd
    rcases List.mem_cons.mp h with heq | hmem
    · cases heq
      simp [lookupTL]
    · simp only [lookupTL]
      split
    
      · next heq =>
        exfalso
        apply hnd.1
        rw [heq]
        exact List.mem_map_of_mem Prod.fst hmem
      · exact ih hnd.2 hmem

theorem subscribe_cmds (st : Manager) (sub : Subscription) (chan : Channel)
    (hinv : st.invB = true)
    (hfresh : ∀ cs, lookupTL sub.timeline st.timelines = some cs →
      ∀ e ∈ cs, e.1 ≠ st.channel_id) :
    (st.subscribe sub chan).2 =
      if (lookupTL sub.timeline st.timelines).isNone then [(.subscribe, [sub.timeline])]
      else [] := by
  unfold Manager.invB at hinv
  unfold Manager.subscribe
  simp only []
  rcases hh : sub.hashtag_name with _ | hname <;>
    rcases ht : sub.timeline.tag with _ | tid <;> dsimp only <;>
  · cases hlk : lookupTL sub.timeline st.timelines with
    | none => simp [insertChan]
    | some cs =>
      have hcs_ne : cs ≠ [] := by
        have := lookupTL_all st.timelines hinv sub.timeline cs hlk
        intro hnil
        rw [hnil] at this
        simp at this
      have hlen := insertChan_length_of_fresh st.channel_id chan cs (hfresh cs hlk)
      rw [Option.getD_some, if_neg, if_neg]
      · simp
      · rw [hlen]
        have : cs.length ≠ 0 := fun h => hcs_ne (List.eq_nil_of_length_eq_zero h)
        omega

theorem send_pings_timelines (st : Manager) :
    ((st.send_pings).1).timelines =
      (st.timelines.map (fun e => (e.1, sweepChans e.2))).filter (fun e => e.2 ≠ []) := rfl

theorem unsubNames_send_pings (st : Manager) :
    unsubNames (st.send_pings).2 =
      ((st.timelines.map (fun e => (e.1, sweepChans e.2))).filter
        (fun e => e.2 = [])).map (fun e => e.1) := by
  unfold Manager.send_pings unsubNames
  simp only []
  split
  · next h => rw [h]; rfl
  · simp

theorem mem_unsubNames_iff (st : Manager) (hnd : (st.timelines.map Prod.fst).Nodup)
    (tl : Timeline) :
    tl ∈ unsubNames (st.send_pings).2 ↔
      ∃ cs, lookupTL tl st.timelines = some cs ∧
        cs.all (fun idc => chanDead idc.2) = true := by
  rw [unsubNames_send_pings]
  constructor
  · intro h
    rw [List.mem_map] at h
    obtain ⟨e, he, hfst⟩ := h
    rw [List.mem_filter] at he
    obtain ⟨hmem, hempty⟩ := he
    rw [List.mem_map] at hmem
    obtain ⟨e0, he0, hmap⟩ := hmem
    subst hmap
    simp only at hfst
    simp only [decide_eq_true_eq] at hempty
    refine ⟨e0.2, ?_, (sweepChans_nil_iff e0.2).mp hempty⟩
    apply lookupTL_some_of_mem hnd
    rw [← hfst]
    exact he0
  · rintro ⟨cs, hlk, hdead⟩
    have hmem := mem_of_lookupTL_some hlk
    rw [List.mem_map]
    refine ⟨(tl, sweepChans cs), ?_, rfl⟩
    rw [List.mem_filter]
    refine ⟨?_, by simpa using (sweepChans_nil_iff cs).mpr hdead⟩
    rw [List.mem_map]
    exact ⟨(tl, cs), hmem, rfl⟩

theorem swept_keys (st : Manager) :
    ((st.timelines.map (fun e => (e.1, sweepChans e.2))).map Prod.fst) =
      st.timelines.map Prod.fst := by
  rw [List.map_map]
  rfl

theorem send_pings_removes (st : Manager) (hnd : (st.timelines.map Prod.fst).Nodup)
    (tl : Timeline) (h : tl ∈ unsubNames (st.send_pings).2) :
    lookupTL tl ((st.send_pings).1).timelines = none := by
  obtain ⟨cs, hlk, hdead⟩ := (mem_unsubNames_iff st hnd tl).mp h
  have hndsw : (((st.timelines.map (fun e => (e.1, sweepChans e.2))).map Prod.fst)).Nodup := by
    rw [swept_keys]
    exact hnd
  have hdead_mem : (tl, ([] : List (Nat × Channel))) ∈
      st.timelines.map (fun e => (e.1, sweepChans e.2)) := by
    rw [List.mem_map]
    refine ⟨(tl, cs), mem_of_lookupTL_some hlk, ?_⟩
    simp only []
    rw [(sweepChans_nil_iff cs).mpr hdead]
  have hlkswept : lookupTL tl (st.timelines.map (fun e => (e.1, sweepChans e.2))) = some [] :=
    lookupTL_some_of_mem hndsw hdead_mem
  rw [send_pings_timelines, lookupTL_eq_none_iff]
  intro hmem
  rw [List.mem_map] at hmem
  obtain ⟨e, he, hfst⟩ := hmem
  rw [List.mem_filter] at he
  obtain ⟨hmemsw, hne⟩ := he
  simp only [ne_eq, decide_eq_true_eq] at hne
  have : lookupTL tl (st.timelines.map (fun e => (e.1, sweepChans e.2))) = some e.2 := by
    apply lookupTL_some_of_mem hndsw
    rw [← hfst]
    exact hmemsw
  rw [hlkswept] at this
  exact hne (Option.some.inj this).symm

theorem unsubNames_key_present (st : Manager) (tl : Timeline)
    (h : tl ∈ unsubNames (st.send_pings).2) : tl ∈ st.timelines.map Prod.fst := by
  rw [unsubNames_send_pings] at h
  rw [List.mem_map] at h
  obtain ⟨e, he, hfst⟩ := h
  rw [List.mem_filter] at he
  obtain ⟨hmem, _⟩ := he
  rw [List.mem_map] at hmem
  obtain ⟨e0, he0, hmap⟩ := hmem
  subst hmap
  simp only at hfst
  rw [← hfst]
  exact List.mem_map_of_mem Prod.fst he0

/-- C9: a bus SUBSCRIBE for timeline tl is issued by `subscribe` exactly when
tl transitions from 0 to 1 channels (adding a further channel issues nothing);
a ping sweep issues an UNSUBSCRIBE naming tl exactly when tl is in the table
and every one of its channels fails the ping; that sweep removes tl from the
table, so the following sweep cannot name tl again — the UNSUBSCRIBE is issued
exactly once, by the sweep removing tl's last channel. -/
theorem C9_subscribe_unsubscribe_transitions :
    (∀ (st : Manager) (sub : Subscription) (chan : Channel),
        st.invB = true →
        (∀ cs, lookupTL sub.timeline st.timelines = some cs →
          ∀ e ∈ cs, e.1 ≠ st.channel_id) →
        (st.subscribe sub chan).2 =
          if (lookupTL sub.timeline st.timelines).isNone then [(.subscribe, [sub.timeline])]
          else []) ∧
    (∀ (st : Manager) (tl : Timeline), (st.timelines.map Prod.fst).Nodup →
        (tl ∈ unsubNames (st.send_pings).2 ↔
          ∃ cs, lookupTL tl st.timelines = some cs ∧
            cs.all (fun idc => chanDead idc.2) = true)) ∧
    (∀ (st : Manager) (tl : Timeline), (st.timelines.map Prod.fst).Nodup →
        tl ∈ unsubNames (st.send_pings).2 →
        lookupTL tl ((st.send_pings).1).timelines = none ∧
          tl ∉ unsubNames (((st.send_pings).1).send_pings).2) := by
  refine ⟨subscribe_cmds, fun st tl hnd => mem_unsubNames_iff st hnd tl, ?_⟩
  intro st tl hnd h
  have hnone := send_pings_removes st hnd tl h
  refine ⟨hnone, fun h2 => ?_⟩
  have hkey := unsubNames_key_present _ tl h2
  exact ((lookupTL_eq_none_iff tl _).mp hnone) hkey

/-- C9 witness: a first subscriber on an empty table issues SUBSCRIBE; a sweep
over a timeline whose only channel is closed removes it and cannot name it
again. -/
theorem C9_subscribe_unsubscribe_transitions_witness :
    ((⟨[], (0, 0), [], 0, [], [], none⟩ : Manager).subscribe
        ⟨.public, none, ⟨[], [], []⟩, []⟩ ⟨true, false, []⟩).2 =
      (if (lookupTL .public ([] : List (Timeline × List (Nat × Channel)))).isNone
        then [(.subscribe, [Timeline.public])] else []) ∧
    (lookupTL .public
        (((⟨[], (0, 0), [(.public, [(0, ⟨true, true, []⟩)])], 1, [], [], none⟩ :
          Manager).send_pings).1).timelines = none ∧
      Timeline.public ∉ unsubNames
        ((((⟨[], (0, 0), [(.public, [(0, ⟨true, true, []⟩)])], 1, [], [], none⟩ :
          Manager).send_pings).1).send_pings).2) :=
  ⟨C9_subscribe_unsubscribe_transitions.1 _ _ _ (by decide)
      (fun cs h => by simp [lookupTL] at h),
   C9_subscribe_unsubscribe_transitions.2.2 _ .public (by decide) (by decide)⟩

/-! ## C1 — backpressure rewind restores the message start -/

theorem window_eq {st : Manager} {A M S : List Nat}
    (hin : st.input = A ++ M ++ S) (h1 : st.unread_idx.1 = A.length)
    (h2 : st.unread_idx.2 = A.length + M.length) : st.window = M := by
  unfold Manager.window
  rw [hin, h1, h2]
  rw [show A ++ M ++ S = (A ++ M) ++ S from by simp,
    List.take_left' (by simp), List.drop_left]

theorem rewindIdx_eq {st : Manager} {A M S : List Nat} (hin : st.input = A ++ M ++ S)
    (h1 : st.unread_idx.1 = A.length + M.length)
    (hvA : utf8ValidUpTo (A ++ M) = A.length + M.length)
    (hM42 : ∃ M', M = 42 :: M')
    (hA : A = [] ∨ ∃ A0, A = A0 ++ [13, 10])
    (hno : hasSub [13, 10, 42] (M.drop 1) = false) : st.rewindIdx = A.length := by
  unfold Manager.rewindIdx
  simp only []
  rw [hin, h1]
  rw [show A ++ M ++ S = (A ++ M) ++ S from by simp, List.take_left' (by simp)]
  rw [hvA, show A.length + M.length = (A ++ M).length from by simp, List.take_length]
  obtain ⟨M', hM'⟩ := hM42
  subst hM'
  exact rfind_msg_boundary A M' hA (by simpa using hno)

theorem rewind_to_prev_msg_eq (st : Manager) :
    st.rewind_to_prev_msg = Manager.rewindAux (st.unread_idx.1 + st.unread_idx.2 + 1) st := rfl

theorem rewindAux_break (f : Nat) (st st' : Manager) (te : Timeline × Event)
    (hpoll : ({ st with unread_idx := (st.rewindIdx, st.unread_idx.2) } : Manager).poll
      = (st', .ready (some te))) :
    Manager.rewindAux (f + 1) st = { st' with unread_idx := (st.rewindIdx, st'.unread_idx.2) } := by
  simp only [Manager.rewindAux]
  rw [hpoll]

theorem poll_snd_msg {st : Manager} {d1 ch d2 p tlb : List Nat} {tl : Timeline} {ev : Event}
    (hwf : MsgWF d1 ch d2 p)
    (hwin : st.window = msgFrame d1 ch d2 p)
    (hvalid : utf8Valid (msgFrame d1 ch d2 p))
    (hns : timeline_matching_ns ch st.ns = some tlb)
    (htl : Timeline.from_redis_text tlb st.tag_id_cache = .ok tl)
    (hev : eventFromTxt p = .ok ev) :
    ((st.poll)).2 = .ready (some (tl, ev)) := by
  rw [poll_msg hwf hwin hvalid hns htl hev]

/-- C1: when fan-out of a decoded message aborts because a still-open channel
of its timeline reports `NotReady`, the dispatch loop returns `NotReady`
without consuming the message: the rewind restores `read_start` to the start
byte of the message (the buffer's dead prefix ends at a frame boundary and the
message holds no interior `"\r\n*"`), so the next poll reports the same
message again once the channel drains. -/
theorem C1_backpressure_rewind (st : Manager) (A S d1 ch d2 p tlb : List Nat)
    (tl : Timeline) (ev : Event) (fuel : Nat)
    (hwf : MsgWF d1 ch d2 p)
    (hin : st.input = A ++ msgFrame d1 ch d2 p ++ S)
    (hidx : st.unread_idx = (A.length, A.length + (msgFrame d1 ch d2 p).length))
    (hvA : utf8ValidUpTo (A ++ msgFrame d1 ch d2 p) = A.length + (msgFrame d1 ch d2 p).length)
    (hvM : utf8Valid (msgFrame d1 ch d2 p))
    (hA : A = [] ∨ ∃ A0, A = A0 ++ [13, 10])
    (hno : hasSub [13, 10, 42] ((msgFrame d1 ch d2 p).drop 1) = false)
    (hns : timeline_matching_ns ch st.ns = some tlb)
    (htl : Timeline.from_redis_text tlb st.tag_id_cache = .ok tl)
    (hev : eventFromTxt p = .ok ev)
    (hbp : ∃ c ∈ (lookupTL tl st.timelines).getD [], c.2.ready = false ∧ c.2.closed = false) :
    ((st.send_loop (fuel + 1)).2 = .deferred) ∧
    (((st.send_loop (fuel + 1)).1).unread_idx.1 = A.length) ∧
    (((((st.send_loop (fuel + 1)).1).poll)).2 = .ready (some (tl, ev))) := by
  have h1A : st.unread_idx.1 = A.length := by rw [hidx]
  have h2A : st.unread_idx.2 = A.length + (msgFrame d1 ch d2 p).length := by rw [hidx]
  have hwin : st.window = msgFrame d1 ch d2 p := window_eq hin h1A h2A
  have hpoll := poll_msg hwf hwin hvM hns htl hev
  rcases hlkc : lookupTL tl st.timelines with _ | cs
  · rw [hlkc] at hbp
    simp at hbp
  rw [hlkc] at hbp
  rw [Option.getD_some] at hbp
  have hab : (fanOutChannels ev cs).2 = true := (fanOutChannels_abort_iff ev cs).mpr hbp
  have hfan : (({ st with unread_idx := (st.unread_idx.2, st.unread_idx.2) } : Manager).fan_out tl ev)
      = ((({ { st with unread_idx := (st.unread_idx.2, st.unread_idx.2) } with
              timelines := setTL tl (fanOutChannels ev cs).1 st.timelines } :
            Manager).rewind_to_prev_msg), true) := by
    unfold Manager.fan_out
    simp only []
    rw [hlkc]
    simp only [Option.isSome_some, if_true]
    rw [hlkc]
    simp [hab]
  have hsl : st.send_loop (fuel + 1) =
      ((({ { st with unread_idx := (st.unread_idx.2, st.unread_idx.2) } with
            timelines := setTL tl (fanOutChannels ev cs).1 st.timelines } :
          Manager).rewind_to_prev_msg), .deferred) := by
    simp only [Manager.send_loop, hpoll]
    rw [hfan]
    simp
  set stMid : Manager :=
    { { st with unread_idx := (st.unread_idx.2, st.unread_idx.2) } with
      timelines := setTL tl (fanOutChannels ev cs).1 st.timelines } with hstMid
  have hrewIdx : stMid.rewindIdx = A.length :=
    rewindIdx_eq (A := A) (M := msgFrame d1 ch d2 p) (S := S) hin h2A hvA
      ⟨_, msgFrame_assoc d1 ch d2 p⟩ hA hno
  have hwin3 : ({ stMid with unread_idx := (stMid.rewindIdx, stMid.unread_idx.2) } :
      Manager).window = msgFrame d1 ch d2 p := window_eq hin hrewIdx h2A
  have hpoll3 := poll_msg hwf hwin3 hvM hns htl hev
  have hrw := rewindAux_break (stMid.unread_idx.1 + stMid.unread_idx.2) stMid _ _ hpoll3
  rw [rewind_to_prev_msg_eq] at hsl
  rw [hrw] at hsl
  rw [hsl]
  exact ⟨rfl, hrewIdx, poll_snd_msg hwf (window_eq hin hrewIdx h2A) hvM hns htl hev⟩

/-- The C1 witness frame: a `timeline:public` message with a decodable delete
event. -/
def c1Frame : List Nat :=
  msgFrame (ascii "15") (ascii "timeline:public") (ascii "32")
    (ascii "\x7b\"event\":\"delete\",\"payload\":\"1\"\x7d")

/-- The C1 witness state: two channels on `Public`, the first ready, the
second open but not ready (scenario S3). -/
def c1St : Manager :=
  ⟨c1Frame, (0, c1Frame.length),
    [(.public, [(0, ⟨true, false, []⟩), (1, ⟨false, false, []⟩)])], 2, [], [], none⟩

/-- C1 witness: the dispatch pass defers, `read_start` is back at the message
start (byte 0), and re-polling yields the same decoded pair. -/
theorem C1_backpressure_rewind_witness :
    ((c1St.send_loop 1).2 = .deferred) ∧
    (((c1St.send_loop 1).1).unread_idx.1 = 0) ∧
    (((((c1St.send_loop 1).1).poll)).2 = .ready (some (.public, .delete [49]))) :=
  C1_backpressure_rewind c1St [] []
    (ascii "15") (ascii "timeline:public") (ascii "32")
    (ascii "\x7b\"event\":\"delete\",\"payload\":\"1\"\x7d")
    (ascii "timeline:public") .public (.delete [49]) 0
    ⟨⟨by decide, by decide, by decide⟩, ⟨by decide, by decide, by decide⟩⟩
    rfl rfl rfl rfl
    (Or.inl rfl) rfl rfl rfl rfl (by decide)

/-! ## C6 — chunk-split determinism of decoding -/

theorem drainAux_notReady {st : Manager} (h : (st.poll).2 = .notReady)
    (fuel : Nat) (acc : List (Timeline × Event)) :
    Manager.drainAux (fuel + 1) st acc = ((st.poll).1, acc) := by
  simp only [Manager.drainAux, h]

theorem drainAux_some {st : Manager} {te : Timeline × Event}
    (h : (st.poll).2 = .ready (some te)) (fuel : Nat) (acc : List (Timeline × Event)) :
    Manager.drainAux (fuel + 1) st acc = Manager.drainAux fuel ((st.poll).1) (acc ++ [te]) := by
  simp only [Manager.drainAux, h]

theorem feedChunk_eq (st : Manager) (c : List Nat) :
    st.feedChunk c = Manager.drainAux (st.unread_idx.2 + c.length + 2)
      ({ st with
        input := st.input.take st.unread_idx.2 ++ c
        unread_idx := (st.unread_idx.1, st.unread_idx.2 + c.length) }) [] := rfl

theorem feedAll_cons (st : Manager) (c : List Nat) (cs : List (List Nat)) :
    st.feedAll (c :: cs) = (((st.feedChunk c).1.feedAll cs).1,
      (st.feedChunk c).2 ++ ((st.feedChunk c).1.feedAll cs).2) := rfl

theorem feedAll_empty_chunks :
    ∀ (cs : List (List Nat)) (st : Manager), st.unread_idx = (0, 0) → cs.flatten = [] →
      ((st.feedAll cs).2 = [] ∧ ((st.feedAll cs).1).unread_idx = (0, 0))
  | [], st => by
    intro _ _
    exact ⟨rfl, by assumption⟩
  | c :: cs, st => by
    intro hidx hflat
    rw [List.flatten_cons, List.append_eq_nil] at hflat
    obtain ⟨hc, hcs⟩ := hflat
    subst hc
    have hwin : ({ st with
        input := st.input.take st.unread_idx.2 ++ ([] : List Nat)
        unread_idx := (st.unread_idx.1, st.unread_idx.2 + List.length ([] : List Nat)) } : Manager).window
        = [] := by
      unfold Manager.window
      simp only [hidx, List.length_nil, Nat.add_zero, List.take_zero, List.drop_zero]
    have hpoll := poll_empty hwin
    have hdrain := drainAux_notReady (by rw [hpoll])
      (st.unread_idx.2 + List.length ([] : List Nat) + 1) []
    rw [feedAll_cons, feedChunk_eq, hdrain, hpoll]
    have hrec := feedAll_empty_chunks cs
      ({ ({ st with
          input := st.input.take st.unread_idx.2 ++ ([] : List Nat)
          unread_idx := (st.unread_idx.1, st.unread_idx.2 + List.length ([] : List Nat)) } :
        Manager) with unread_idx := ((0 : Nat), (0 : Nat)) }) rfl hcs
    exact ⟨by simpa using hrec.1, by simpa using hrec.2⟩

theorem window_mk (inp : List Nat) (a b : Nat) (T : List (Timeline × List (Nat × Channel)))
    (cid : Nat) (ca : List (List Nat × Int)) (cn : List (Int × List Nat))
    (nsv : Option (List Nat)) :
    (Manager.mk inp (a, b) T cid ca cn nsv).window = (inp.take b).drop a := rfl

theorem feedAll_mid (d1 ch d2 p tlb : List Nat) (tl : Timeline) (ev : Event)
    (T : List (Timeline × List (Nat × Channel))) (cid : Nat)
    (ca : List (List Nat × Int)) (cn : List (Int × List Nat)) (nsv : Option (List Nat))
    (hwf : MsgWF d1 ch d2 p) (hvM : utf8Valid (msgFrame d1 ch d2 p))
    (hns : timeline_matching_ns ch nsv = some tlb)
    (htl : Timeline.from_redis_text tlb ca = .ok tl)
    (hev : eventFromTxt p = .ok ev) :
    ∀ (cs : List (List Nat)) (k : Nat),
      (msgFrame d1 ch d2 p).drop k = cs.flatten →
      k < (msgFrame d1 ch d2 p).length →
      ((((Manager.mk ((msgFrame d1 ch d2 p).take k) (0, k) T cid ca cn nsv).feedAll cs)).2
          = [(tl, ev)]) ∧
      ((((Manager.mk ((msgFrame d1 ch d2 p).take k) (0, k) T cid ca cn nsv).feedAll
          cs)).1.unread_idx = (0, 0))
  | [], k => by
    intro hsplit hk
    exfalso
    have hlen := congrArg List.length hsplit
    simp only [List.length_drop, List.flatten_nil, List.length_nil] at hlen
    omega
  | c :: cs, k => by
    intro hsplit hk
    have hlen := congrArg List.length hsplit
    simp only [List.length_drop, List.flatten_cons, List.length_append] at hlen
    have hk' : k + c.length ≤ (msgFrame d1 ch d2 p).length := by omega
    rw [List.flatten_cons] at hsplit
    have hc : ((msgFrame d1 ch d2 p).drop k).take c.length = c := by
      rw [hsplit, List.take_left]
    have hinput : (msgFrame d1 ch d2 p).take k ++ c =
        (msgFrame d1 ch d2 p).take (k + c.length) := by
      rw [List.take_add, hc]
    have hsplit' : (msgFrame d1 ch d2 p).drop (k + c.length) = cs.flatten := by
      rw [← List.drop_drop, hsplit, List.drop_left]
    have htt : (((msgFrame d1 ch d2 p).take k).take k) = (msgFrame d1 ch d2 p).take k := by
      rw [List.take_take, min_self]
    rw [feedAll_cons, feedChunk_eq]
    dsimp only
    rw [htt, hinput]
    rcases Nat.lt_or_ge (k + c.length) (msgFrame d1 ch d2 p).length with hlt | hge
    · by_cases hz : k + c.length = 0
      · have hcz : c = [] := by
          have : c.length = 0 := by omega
          exact List.eq_nil_of_length_eq_zero this
        have hkz : k = 0 := by omega
        have hwin0 : (Manager.mk ((msgFrame d1 ch d2 p).take (k + c.length))
            (0, k + c.length) T cid ca cn nsv).window = [] := by
          rw [window_mk, hz]
          simp
        have hpoll0 := poll_empty hwin0
        rw [drainAux_notReady (by rw [hpoll0]) (k + c.length + 1) [], hpoll0]
        have hrec := feedAll_mid d1 ch d2 p tlb tl ev T cid ca cn nsv hwf hvM hns htl hev
          cs 0 (by simpa [hkz, hcz] using hsplit) (by omega)
        constructor
        · have := hrec.1
          simp only [hz] at *
          simpa [hkz] using this
        · have := hrec.2
          simp only [hz] at *
          simpa [hkz] using this
      · have hpos : 0 < k + c.length := Nat.pos_of_ne_zero hz
        have hlenk : ((msgFrame d1 ch d2 p).take (k + c.length)).length = k + c.length := by
          simp only [List.length_take]
          omega
        have hwin1 : (Manager.mk ((msgFrame d1 ch d2 p).take (k + c.length))
            (0, k + c.length) T cid ca cn nsv).window =
            (msgFrame d1 ch d2 p).take (k + c.length) := by
          rw [window_mk]
          rw [List.take_of_length_le (le_of_eq hlenk), List.drop_zero]
        set W := (msgFrame d1 ch d2 p).take (k + c.length) with hW
        have hvle : utf8ValidUpTo W ≤ k + c.length := by
          have := utf8ValidUpTo_le W
          omega
        have hVtake : W.take (utf8ValidUpTo W) =
            (msgFrame d1 ch d2 p).take (utf8ValidUpTo W) := by
          rw [hW, List.take_take, min_eq_left hvle]
        have hvpos : 1 ≤ utf8ValidUpTo W := by
          obtain ⟨j, hj⟩ := Nat.exists_eq_add_of_lt hpos
          obtain ⟨M', hM'⟩ : ∃ M', msgFrame d1 ch d2 p = 42 :: M' :=
            ⟨_, msgFrame_assoc d1 ch d2 p⟩
          rw [hW, hM', show k + c.length = j + 1 from by omega, List.take_succ_cons]
          exact utf8ValidUpTo_pos_of_low 42 (by omega) _
        have hVne : W.take (utf8ValidUpTo W) ≠ [] := by
          apply List.ne_nil_of_length_pos
          rw [List.length_take]
          have : 1 ≤ W.length := by rw [hW, hlenk]; omega
          omega
        have hinc : parseRESP (W.take (utf8ValidUpTo W)) = .error .incomplete := by
          rw [hVtake]
          exact parseRESP_msgFrame_take hwf _ (by omega)
        have hpoll1 := poll_incomplete hwin1 hVne hinc
        rw [drainAux_notReady (by rw [hpoll1]) (k + c.length + 1) [], hpoll1]
        have hcp : (Manager.mk W (0, k + c.length) T cid ca cn nsv).copy_partial_msg =
            Manager.mk W (0, k + c.length) T cid ca cn nsv := by
          simp [Manager.copy_partial_msg]
        rw [hcp]
        have hrec := feedAll_mid d1 ch d2 p tlb tl ev T cid ca cn nsv hwf hvM hns htl hev
          cs (k + c.length) hsplit' hlt
        exact ⟨by simpa using hrec.1, by simpa using hrec.2⟩
    · have heq : k + c.length = (msgFrame d1 ch d2 p).length := le_antisymm hk' hge
      have hwinM : (Manager.mk ((msgFrame d1 ch d2 p).take (k + c.length))
          (0, k + c.length) T cid ca cn nsv).window = msgFrame d1 ch d2 p := by
        rw [window_mk, heq, List.take_length,
          List.take_of_length_le (le_refl _), List.drop_zero]
      have hpollM := poll_msg hwf hwinM hvM hns htl hev
      rw [drainAux_some (by rw [hpollM]) (k + c.length + 1) [], hpollM]
      have hwinE : ({ Manager.mk ((msgFrame d1 ch d2 p).take (k + c.length))
          (0, k + c.length) T cid ca cn nsv with
          unread_idx := ((Manager.mk ((msgFrame d1 ch d2 p).take (k + c.length))
            (0, k + c.length) T cid ca cn nsv).unread_idx.2,
          (Manager.mk ((msgFrame d1 ch d2 p).take (k + c.length))
            (0, k + c.length) T cid ca cn nsv).unread_idx.2) } : Manager).window = [] := by
        unfold Manager.window
        dsimp only
        rw [List.take_take, min_self, List.drop_of_length_le]
        rw [List.length_take]
        omega
      have hpollE := poll_empty hwinE
      rw [drainAux_notReady (by rw [hpollE]) (k + c.length) ([] ++ [(tl, ev)]), hpollE]
      have hflat0 : cs.flatten = [] := by
        rw [← hsplit', heq, List.drop_length]
      have hrec := feedAll_empty_chunks cs
        ({ ({ Manager.mk ((msgFrame d1 ch d2 p).take (k + c.length))
            (0, k + c.length) T cid ca cn nsv with
            unread_idx := ((Manager.mk ((msgFrame d1 ch d2 p).take (k + c.length))
              (0, k + c.length) T cid ca cn nsv).unread_idx.2,
            (Manager.mk ((msgFrame d1 ch d2 p).take (k + c.length))
              (0, k + c.length) T cid ca cn nsv).unread_idx.2) } : Manager) with
          unread_idx := ((0 : Nat), (0 : Nat)) }) rfl hflat0
      exact ⟨by simpa using hrec.1, by simpa using hrec.2⟩

/-- C6: feeding a valid message to a fresh manager as one single chunk, or as
any split into successive chunks (appending at `write_end` and polling to
exhaustion after each chunk), yields the identical decoded
`(Timeline, Event)` pair and the identical final buffer indices. -/
theorem C6_chunk_split (st0 : Manager) (d1 ch d2 p tlb : List Nat) (tl : Timeline)
    (ev : Event) (chunks : List (List Nat))
    (hin : st0.input = []) (hidx : st0.unread_idx = (0, 0))
    (hwf : MsgWF d1 ch d2 p) (hvM : utf8Valid (msgFrame d1 ch d2 p))
    (hns : timeline_matching_ns ch st0.ns = some tlb)
    (htl : Timeline.from_redis_text tlb st0.tag_id_cache = .ok tl)
    (hev : eventFromTxt p = .ok ev)
    (hjoin : chunks.flatten = msgFrame d1 ch d2 p) :
    ((st0.feedAll chunks).2 = [(tl, ev)] ∧ ((st0.feedAll chunks).1).unread_idx = (0, 0)) ∧
    ((st0.feedAll [msgFrame d1 ch d2 p]).2 = [(tl, ev)] ∧
      ((st0.feedAll [msgFrame d1 ch d2 p]).1).unread_idx = (0, 0)) := by
  obtain ⟨inp, idx, T, cid, ca, cn, nsv⟩ := st0
  simp only at hin hidx hns htl
  subst hin
  subst hidx
  have hkpos : 0 < (msgFrame d1 ch d2 p).length :=
    List.length_pos.mpr (msgFrame_ne_nil d1 ch d2 p)
  have h0 := feedAll_mid d1 ch d2 p tlb tl ev T cid ca cn nsv hwf hvM hns htl hev
  have hM0 : (msgFrame d1 ch d2 p).take 0 = [] := rfl
  constructor
  · have h1 := h0 chunks 0 (by rw [List.drop_zero]; exact hjoin.symm) hkpos
    rw [hM0] at h1
    exact h1
  · have h2 := h0 [msgFrame d1 ch d2 p] 0 (by simp) hkpos
    rw [hM0] at h2
    exact h2

/-- The C6 witness frame and a two-way split of it (scenario S1 style). -/
def c6Frame : List Nat :=
  msgFrame (ascii "15") (ascii "timeline:public") (ascii "32")
    (ascii "\x7b\"event\":\"delete\",\"payload\":\"7\"\x7d")

/-- C6 witness: a concrete two-chunk split and the single chunk give the same
decoded pair and the same final indices. -/
theorem C6_chunk_split_witness :
    (((Manager.mk [] (0, 0) [] 0 [] [] none).feedAll [c6Frame.take 10, c6Frame.drop 10]).2
        = [(.public, .delete [55])] ∧
      (((Manager.mk [] (0, 0) [] 0 [] [] none).feedAll
        [c6Frame.take 10, c6Frame.drop 10]).1).unread_idx = (0, 0)) ∧
    (((Manager.mk [] (0, 0) [] 0 [] [] none).feedAll [c6Frame]).2
        = [(.public, .delete [55])] ∧
      (((Manager.mk [] (0, 0) [] 0 [] [] none).feedAll [c6Frame]).1).unread_idx = (0, 0)) :=
  C6_chunk_split (Manager.mk [] (0, 0) [] 0 [] [] none)
    (ascii "15") (ascii "timeline:public") (ascii "32")
    (ascii "\x7b\"event\":\"delete\",\"payload\":\"7\"\x7d")
    (ascii "timeline:public") .public (.delete [55])
    [c6Frame.take 10, c6Frame.drop 10]
    rfl rfl ⟨⟨by decide, by decide, by decide⟩, ⟨by decide, by decide, by decide⟩⟩
    rfl rfl rfl rfl (by decide)
